import Mathlib

/-!
The proxy-host router of `src/backend/routes/api/nginx/proxy_hosts.js`.

A shallow embedding of the Express router that fronts the proxy-host manager.

* JavaScript values are the inductive `JSVal`; numbers are `JSNum`, the values a
  call of `parseInt` can produce (NaN, the infinities, integer-valued doubles).
* A promise is modelled by the way it settles: `Except JSVal α` (`error e` is a
  rejection with reason `e`, `ok v` a fulfilment with value `v`).
* The collaborators required at the top of the file (`validator`,
  `apiValidator`, `jwtdecode`, `internalProxyHost`) are fields of `Env`.
* A handler is a function to the list of observable calls it makes, in order
  (`Event`): calls of the collaborators, of `res.status`, `res.send`,
  `res.sendStatus` and of `next`.
* The validators fulfil with the validated payload, a plain object (`Obj`).
* The response object is that of Express 4: `res.send(v)` with a number `v` takes `v` as
  the status code, and writing the head throws a `RangeError` when the status code is not
  between 100 and 999 (`sendOutcome`).
-/

namespace ProxyHosts

/-! ## JavaScript values -/

/-- A JavaScript number as far as this router can produce one: `NaN`, an infinity, or a
finite integer-valued double given by sign and magnitude (`fin true 0` is `-0`). -/
inductive JSNum where
  | nan : JSNum
  | inf (neg : Bool) : JSNum
  | fin (neg : Bool) (mag : Nat) : JSNum
  deriving DecidableEq, Repr

/-- JavaScript values: `undefined`, `null`, booleans, numbers, strings, arrays and plain
objects (a list of own properties, in property order). -/
inductive JSVal where
  | undefined : JSVal
  | null : JSVal
  | bool (b : Bool) : JSVal
  | num (n : JSNum) : JSVal
  | str (s : String) : JSVal
  | arr (xs : List JSVal) : JSVal
  | obj (fields : List (String × JSVal)) : JSVal

/-- A plain object: its own properties in order. -/
abbrev Obj := List (String × JSVal)

/-- The expression `typeof v === 'string'`. -/
def isString : JSVal → Bool
  | .str _ => true
  | _ => false

/-- The truthiness of a value (ToBoolean): `undefined`, `null`, `false`, `NaN`, the two
zeros and the empty string are falsy, everything else is truthy. -/
def truthy : JSVal → Bool
  | .undefined => false
  | .null => false
  | .bool b => b
  | .num .nan => false
  | .num (.inf _) => true
  | .num (.fin _ mag) => mag != 0
  | .str s => s != ""
  | .arr _ => true
  | .obj _ => true

/-- The expression `typeof v === 'number'`. -/
def isNumber : JSVal → Bool
  | .num _ => true
  | _ => false

/-- Whether the value is one of the strings `'route'` and `'router'`, with which a call of
`next` leaves the route or the router instead of raising an error. -/
def isExitSignal : JSVal → Bool
  | .str s => s == "route" || s == "router"
  | _ => false

/-- Whether `next(e)` raises `e` as an error: `e` is truthy and not an exit signal. -/
def isErrorArg (e : JSVal) : Bool := truthy e && !isExitSignal e

/-- Property read `o.k` on a plain object: the value of the own property `k`, or `undefined`. -/
def getProp : Obj → String → JSVal
  | [], _ => .undefined
  | (k', v) :: rest, k => if k' = k then v else getProp rest k

/-- Property write `o.k = v` on a plain object: an existing property keeps its place and
takes the new value, a new property is added at the end. -/
def setProp : Obj → String → JSVal → Obj
  | [], k, v => [(k, v)]
  | (k', v') :: rest, k, v =>
    if k' = k then (k, v) :: rest else (k', v') :: setProp rest k v

/-! ## `String.prototype.split(',')` -/

/-- The pieces of a character sequence between its commas: the first piece and the list of
the following ones. -/
def splitComma : List Char → List Char × List (List Char)
  | [] => ([], [])
  | c :: cs =>
    let r := splitComma cs
    if c = ',' then ([], r.1 :: r.2) else (c :: r.1, r.2)

/-- The call `s.split(',')`: the substrings of `s` between its commas. -/
def split (s : String) : List String :=
  let r := splitComma s.data
  (r.1 :: r.2).map String.mk

/-- The call `xs.join(',')` on an array of strings. -/
def joinComma : List String → String
  | [] => ""
  | [x] => x
  | x :: y :: rest => x ++ "," ++ joinComma (y :: rest)

/-! ## `parseInt(string, 10)` -/

/-- The code points skipped at the start of the input of `parseInt`: the WhiteSpace and
LineTerminator code points of ECMAScript. -/
def isWhiteSpace (c : Char) : Bool :=
  c.toNat ∈ [0x09, 0x0A, 0x0B, 0x0C, 0x0D, 0x20, 0xA0, 0x1680,
    0x2000, 0x2001, 0x2002, 0x2003, 0x2004, 0x2005, 0x2006, 0x2007, 0x2008, 0x2009, 0x200A,
    0x2028, 0x2029, 0x202F, 0x205F, 0x3000, 0xFEFF]

/-- The WhiteSpace and LineTerminator code points of ECMAScript, as characters. -/
def whiteSpaceChars : List Char :=
  ['\x09', '\x0a', '\x0b', '\x0c', '\x0d', ' ', '\xa0', '\u1680', '\u2000', '\u2001',
    '\u2002', '\u2003', '\u2004', '\u2005', '\u2006', '\u2007', '\u2008', '\u2009',
    '\u200a', '\u2028', '\u2029', '\u202f', '\u205f', '\u3000', '\ufeff']

/-- Whether the character is a radix-10 digit. -/
def isDecDigit (c : Char) : Bool := 48 ≤ c.toNat && c.toNat ≤ 57

/-- The longest leading run of decimal digits. -/
def takeDigits : List Char → List Char
  | [] => []
  | c :: cs => if isDecDigit c then c :: takeDigits cs else []

/-- The integer a run of decimal digits denotes, continuing from `acc`. -/
def mathInt (acc : Nat) : List Char → Nat
  | [] => acc
  | c :: cs => mathInt (10 * acc + (c.toNat - 48)) cs

/-- Halving `m` until it is below 2, at most `fuel` times: the number of halvings. -/
def log2Aux : Nat → Nat → Nat
  | 0, _ => 0
  | fuel + 1, m => if m < 2 then 0 else log2Aux fuel (m / 2) + 1

/-- The binary exponent of `m`: the position of its highest set bit (0 for 0). The fuel `m`
is never used up, as halving a positive number makes it smaller. -/
def ilog2 (m : Nat) : Nat := log2Aux m m

/-- The natural number rounded to the nearest value with a 53-bit significand, ties to
even (the Number value of a mathematical integer, before the overflow check). -/
def roundToDouble (m : Nat) : Nat :=
  if m < 2 ^ 53 then m
  else
    let e := ilog2 m - 52
    let q := m / 2 ^ e
    let r := m % 2 ^ e
    let half := 2 ^ (e - 1)
    let q' := if half < r ∨ (r = half ∧ q % 2 = 1) then q + 1 else q
    q' * 2 ^ e

/-- The Number value of `sign × m`: the rounded magnitude, or an infinity when that exceeds
the largest finite double, that is when its binary exponent reaches 1024. -/
def toNumber (neg : Bool) (m : Nat) : JSNum :=
  let d := roundToDouble m
  if ilog2 d < 1024 then .fin neg d else .inf neg

/-- The part of the input after the optional sign, and whether the sign was `-`. -/
def stripSign : List Char → Bool × List Char
  | [] => (false, [])
  | c :: cs =>
    if c = '-' then (true, cs) else if c = '+' then (false, cs) else (false, c :: cs)

/-- The call `parseInt(s, 10)` on a string: leading white space is dropped, an optional
sign is read, the longest run of decimal digits that follows is the magnitude; `NaN` when
that run is empty. -/
def parseInt (s : String) : JSNum :=
  let r := stripSign (s.data.dropWhile isWhiteSpace)
  let z := takeDigits r.2
  if z = [] then .nan else toNumber r.1 (mathInt 0 z)

/-! ## ToString -/

/-- The pairs `(s, n)` with `k` digits in `s` for which `s × 10^(n-k)` has the Number
value `x`; `n` is the number of digits of `x` or one more. -/
def digitCandidates (x k : Nat) : List (Nat × Nat) :=
  let len := (Nat.repr x).length
  ([len, len + 1].flatMap fun n =>
    [x / 10 ^ (n - k), x / 10 ^ (n - k) + 1].map fun s => (s, n)).filter fun c =>
      10 ^ (k - 1) ≤ c.1 && c.1 < 10 ^ k && roundToDouble (c.1 * 10 ^ (c.2 - k)) == x

/-- The distance of two natural numbers. -/
def natDist (a b : Nat) : Nat := (a - b) + (b - a)

/-- Of two candidates the one closer to `x`, the even one on a tie. -/
def better (x k : Nat) (a b : Nat × Nat) : Nat × Nat :=
  let da := natDist (a.1 * 10 ^ (a.2 - k)) x
  let db := natDist (b.1 * 10 ^ (b.2 - k)) x
  if db < da ∨ (db = da ∧ b.1 % 2 = 0) then b else a

/-- The shortest digits `(s, k, n)` of `x`: the least `k` from the given one on with a
candidate, and the best candidate for it. -/
def shortestFrom (x : Nat) : Nat → Nat → Nat × Nat × Nat
  | 0, k => (x, k, (Nat.repr x).length)
  | fuel + 1, k =>
    match digitCandidates x k with
    | [] => shortestFrom x fuel (k + 1)
    | c :: cs =>
      let b := cs.foldl (better x k) c
      (b.1, k, b.2)

/-- The exponential form `d.ddde+nn` of a number from 10^21 on. -/
def exponentForm (x : Nat) : String :=
  let r := shortestFrom x 21 1
  let ds := (Nat.repr r.1).data
  String.mk (ds.take 1 ++ (if ds.length > 1 then '.' :: ds.drop 1 else []))
    ++ "e+" ++ Nat.repr (r.2.2 - 1)

/-- The string of a number (Number::toString, radix 10): decimal digits below 10^21, the
exponential form from there on; `-0` gives `0`. -/
def numberToString : JSNum → String
  | .nan => "NaN"
  | .inf false => "Infinity"
  | .inf true => "-Infinity"
  | .fin neg mag =>
    (if neg && mag != 0 then "-" else "") ++
      (if mag < 10 ^ 21 then Nat.repr mag else exponentForm mag)

mutual
/-- The conversion ToString of a value; an array gives its elements joined by commas. -/
def toStringJS : JSVal → String
  | .undefined => "undefined"
  | .null => "null"
  | .bool b => if b then "true" else "false"
  | .num n => numberToString n
  | .str s => s
  | .arr xs => joinElements xs
  | .obj _ => "[object Object]"
/-- The call `xs.join(',')` on an array of values. -/
def joinElements : List JSVal → String
  | [] => ""
  | [x] => elementString x
  | x :: y :: rest => elementString x ++ "," ++ joinElements (y :: rest)
/-- The string of an array element in a join: empty for `undefined` and `null`. -/
def elementString : JSVal → String
  | .undefined => ""
  | .null => ""
  | .bool b => if b then "true" else "false"
  | .num n => numberToString n
  | .str s => s
  | .arr xs => joinElements xs
  | .obj _ => "[object Object]"
end

/-- The call `parseInt(v, 10)` on any value: the value is first converted to a string. -/
def parseIntOf (v : JSVal) : JSNum := parseInt (toStringJS v)

/-! ## The response object -/

/-- The body of a response: none, a value as `res.send` writes it, the message the table
of status messages has for a code (nothing when it has none), or the message of a code as
`res.sendStatus` writes it. -/
inductive Body where
  | empty : Body
  | value (v : JSVal) : Body
  | statusMessage (code : Nat) : Body
  | statusText (code : Nat) : Body

/-- A response on the wire. -/
structure Response where
  status : Nat
  body : Body

/-- Whether writing the head accepts the status code. -/
def validStatus (c : Nat) : Bool := 100 ≤ c && c ≤ 999

/-- The 32-bit integer `x | 0` of a number, as a residue modulo 2^32. -/
def toInt32Residue : JSNum → Nat
  | .nan => 0
  | .inf _ => 0
  | .fin neg mag => if neg then (2 ^ 32 - mag % 2 ^ 32) % 2 ^ 32 else mag % 2 ^ 32

/-- The status code written for a number given to `res.send`, when it is accepted. -/
def statusOf (x : JSNum) : Option Nat :=
  if validStatus (toInt32Residue x) then some (toInt32Residue x) else none

/-- The body `res.send` writes for a number: the message of that status code, nothing for
204 and 304. -/
def numericBody : JSNum → Body
  | .fin false mag => if mag = 204 ∨ mag = 304 then .empty else .statusMessage mag
  | _ => .empty

/-- The error thrown when the head is written with a status code that is not accepted. -/
def invalidStatusCode (x : JSNum) : JSVal :=
  .obj [("name", .str "RangeError"),
    ("message", .str ("Invalid status code: " ++ numberToString x))]

/-- The call `res.send(body)` with the status code `cur` set before: the response written,
or the error thrown. A number is taken as the status code and its message is the body; any
other value is the body under the status code `cur`. -/
def sendOutcome (cur : Nat) : JSVal → Except JSVal Response
  | .num x =>
    match statusOf x with
    | some c => .ok ⟨c, numericBody x⟩
    | none => .error (invalidStatusCode x)
  | body =>
    if validStatus cur then .ok ⟨cur, if cur = 204 ∨ cur = 304 then .empty else .value body⟩
    else .error (invalidStatusCode (.fin false cur))

/-! ## The collaborators and the observable calls -/

/-- The operations of `internalProxyHost` the router calls. -/
inductive CoreOp where
  | getAll | create | get | update | delete | setCerts
  deriving DecidableEq, Repr

/-- The request methods. -/
inductive Method where
  | GET | POST | PUT | DELETE | OPTIONS | HEAD | PATCH
  deriving DecidableEq, Repr

/-- What the `jwtdecode()` middleware does with a request: it calls `next()` with
`res.locals.access` holding the given descriptor, it calls `next(err)`, or it ends the
request itself without calling `next`. -/
inductive JwtOutcome where
  | pass (access : JSVal) : JwtOutcome
  | fail (err : JSVal) : JwtOutcome
  | stop : JwtOutcome

/-- What a handler reads of the request: the method, `req.params.host_id`,
`req.query.expand`, `req.query.query`, `req.body` and `req.files`. -/
structure Req where
  method : Method
  host_id : String
  expand : JSVal
  query : JSVal
  body : JSVal
  files : JSVal

/-- The modules the router requires, each given by how its promise settles: `validator`
and `apiValidator` (schema, payload) fulfil with the validated payload object or reject;
`core op args` is the call `internalProxyHost.op(args...)`; `jwtdecode` is the middleware. -/
structure Env where
  validator : JSVal → JSVal → Except JSVal Obj
  apiValidator : JSVal → JSVal → Except JSVal Obj
  core : CoreOp → List JSVal → Except JSVal JSVal
  jwtdecode : Req → JwtOutcome

/-- The observable calls of a request, in the order they are made. -/
inductive Event where
  | jwtdecode : Event
  | validator (schema payload : JSVal) : Event
  | apiValidator (schema payload : JSVal) : Event
  | core (op : CoreOp) (args : List JSVal) : Event
  | status (code : Nat) : Event
  | send (body : JSVal) : Event
  | sendStatus (code : Nat) : Event
  | next (err : Option JSVal) : Event

/-- The expression `typeof e === 'string' ? e.split(',') : null`. -/
def expandArg : JSVal → JSVal
  | .str s => .arr ((split s).map .str)
  | _ => .null

/-- The expression `typeof q === 'string' ? q : null`. -/
def queryArg : JSVal → JSVal
  | .str s => .str s
  | _ => .null

/-- A schema reference `{$ref: path}`. -/
def ref (path : String) : JSVal := .obj [("$ref", .str path)]

/-- The schema literal of `GET /`. -/
def listSchema : JSVal :=
  .obj [("additionalProperties", .bool false),
    ("properties", .obj [("expand", ref "definitions#/definitions/expand"),
      ("query", ref "definitions#/definitions/query")])]

/-- The schema literal of `GET /:host_id`. -/
def getSchema : JSVal :=
  .obj [("required", .arr [.str "host_id"]),
    ("additionalProperties", .bool false),
    ("properties", .obj [("host_id", ref "definitions#/definitions/id"),
      ("expand", ref "definitions#/definitions/expand")])]

/-- The schema reference of `POST /`. -/
def createSchema : JSVal := ref "endpoints/proxy-hosts#/links/1/schema"

/-- The schema reference of `PUT /:host_id`. -/
def updateSchema : JSVal := ref "endpoints/proxy-hosts#/links/2/schema"

/-- The body of the 400 response of the certificates route. -/
def noFilesBody : JSVal := .obj [("error", .str "No files were uploaded")]

/-! ## The handlers -/

/-- The tail `.then(result => res.status(code).send(result)).catch(next)` of every promise
chain, after a call of the core with `args`: a rejection goes to `next`, and so does an
error thrown by `send`. -/
def callCore (env : Env) (op : CoreOp) (args : List JSVal) (code : Nat) : List Event :=
  .core op args ::
    match env.core op args with
    | .ok result =>
      .status code :: .send result ::
        match sendOutcome code result with
        | .ok _ => []
        | .error err => [.next (some err)]
    | .error e => [.next (some e)]

/-- The handler `.options((req, res) => res.sendStatus(204))`. -/
def optionsHandler : List Event := [.sendStatus 204]

/-- The object `GET /` hands to the validator. -/
def listInput (req : Req) : JSVal :=
  .obj [("expand", expandArg req.expand), ("query", queryArg req.query)]

/-- The object `GET /:host_id` hands to the validator. -/
def getInput (req : Req) : JSVal :=
  .obj [("host_id", .str req.host_id), ("expand", expandArg req.expand)]

/-- The handler of `GET /`. -/
def listHandler (env : Env) (req : Req) (access : JSVal) : List Event :=
  .validator listSchema (listInput req) ::
    match env.validator listSchema (listInput req) with
    | .ok data =>
      callCore env .getAll [access, getProp data "expand", getProp data "query"] 200
    | .error e => [.next (some e)]

/-- The handler of `POST /`. -/
def createHandler (env : Env) (req : Req) (access : JSVal) : List Event :=
  .apiValidator createSchema req.body ::
    match env.apiValidator createSchema req.body with
    | .ok payload => callCore env .create [access, .obj payload] 201
    | .error e => [.next (some e)]

/-- The handler of `GET /:host_id`. -/
def getHandler (env : Env) (req : Req) (access : JSVal) : List Event :=
  .validator getSchema (getInput req) ::
    match env.validator getSchema (getInput req) with
    | .ok data =>
      callCore env .get [access,
        .obj [("id", .num (parseIntOf (getProp data "host_id"))),
          ("expand", getProp data "expand")]] 200
    | .error e => [.next (some e)]

/-- The handler of `PUT /:host_id`. -/
def updateHandler (env : Env) (req : Req) (access : JSVal) : List Event :=
  .apiValidator updateSchema req.body ::
    match env.apiValidator updateSchema req.body with
    | .ok payload =>
      callCore env .update
        [access, .obj (setProp payload "id" (.num (parseInt req.host_id)))] 200
    | .error e => [.next (some e)]

/-- The handler of `DELETE /:host_id`. -/
def deleteHandler (env : Env) (req : Req) (access : JSVal) : List Event :=
  callCore env .delete [access, .obj [("id", .num (parseInt req.host_id))]] 200

/-- The handler of `POST /:host_id/certificates`. -/
def certsHandler (env : Env) (req : Req) (access : JSVal) : List Event :=
  if truthy req.files = false then
    [.status 400, .send noFilesBody]
  else
    callCore env .setCerts
      [access, .obj [("id", .num (parseInt req.host_id)), ("files", req.files)]] 200

/-! ## The routes -/

/-- The handlers the router registers. -/
inductive Handler where
  | options | jwtdecode | list | create | get | update | delete | setCerts
  deriving DecidableEq, Repr

/-- A layer of a route: the method it is registered for (`none` for `.all`) and its
handler. -/
structure Layer where
  method : Option Method
  handler : Handler

/-- The calls a handler makes, and the value of `res.locals.access` with which the next
layer is entered when the handler called `next()`; `none` when the request ends here. -/
def runHandler (env : Env) (req : Req) (access : JSVal) : Handler → List Event × Option JSVal
  | .options => (optionsHandler, none)
  | .jwtdecode =>
    match env.jwtdecode req with
    | .pass access' => ([.jwtdecode, .next none], some access')
    | .fail err => ([.jwtdecode, .next (some err)], none)
    | .stop => ([.jwtdecode], none)
  | .list => (listHandler env req access, none)
  | .create => (createHandler env req access, none)
  | .get => (getHandler env req access, none)
  | .update => (updateHandler env req access, none)
  | .delete => (deleteHandler env req access, none)
  | .setCerts => (certsHandler env req access, none)

/-- The method a route matches its layers against: `HEAD` counts as `GET` on a route
without a handler for `HEAD`. -/
def effectiveMethod : Method → Method
  | .HEAD => .GET
  | m => m

/-- Whether a layer is run for the method: `.all` layers always, the others on their own
method. -/
def Layer.handles (l : Layer) (m : Method) : Bool :=
  match l.method with
  | none => true
  | some m' => m' == effectiveMethod m

/-- The run of a request through the layers of a route, in registration order: a layer for
another method is skipped, and the next layer is entered only when the handler called
`next()`. -/
def dispatch (env : Env) (req : Req) : List Layer → JSVal → List Event
  | [], _ => []
  | l :: ls, access =>
    if l.handles req.method then
      let r := runHandler env req access l.handler
      match r.2 with
      | some access' => r.1 ++ dispatch env req ls access'
      | none => r.1
    else dispatch env req ls access

/-- The route `'/'`. -/
def rootRoute : List Layer :=
  [⟨some .OPTIONS, .options⟩, ⟨none, .jwtdecode⟩, ⟨some .GET, .list⟩, ⟨some .POST, .create⟩]

/-- The route `'/:host_id'`. -/
def hostRoute : List Layer :=
  [⟨some .OPTIONS, .options⟩, ⟨none, .jwtdecode⟩, ⟨some .GET, .get⟩, ⟨some .PUT, .update⟩,
    ⟨some .DELETE, .delete⟩]

/-- The route `'/:host_id/certificates'`. -/
def certsRoute : List Layer :=
  [⟨some .OPTIONS, .options⟩, ⟨none, .jwtdecode⟩, ⟨some .POST, .setCerts⟩]

/-! ## Reading a trace -/

/-- The responses the calls of `res` put on the wire, `cur` being the status code set so
far: `send` writes what `sendOutcome` gives (nothing when it throws), `sendStatus` sets the
code and sends its message, and a response with code 204 or 304 carries no body. -/
def responsesFrom (cur : Nat) : List Event → List Response
  | [] => []
  | .status c :: es => responsesFrom c es
  | .send b :: es =>
    match sendOutcome cur b with
    | .ok r => r :: responsesFrom r.status es
    | .error _ => responsesFrom cur es
  | .sendStatus c :: es =>
    ⟨c, if c = 204 ∨ c = 304 then .empty else .statusText c⟩ :: responsesFrom c es
  | _ :: es => responsesFrom cur es

/-- The responses of a request; the status code of a fresh response is 200. -/
def responses (tr : List Event) : List Response := responsesFrom 200 tr

/-- The argument lists of the calls of the core operation `op`, in order. -/
def coreCalls (op : CoreOp) : List Event → List (List JSVal)
  | [] => []
  | .core op' args :: es => if op' = op then args :: coreCalls op es else coreCalls op es
  | _ :: es => coreCalls op es

/-- The argument lists of all calls of the core, in order. -/
def allCoreCalls : List Event → List (List JSVal)
  | [] => []
  | .core _ args :: es => args :: allCoreCalls es
  | _ :: es => allCoreCalls es

/-- The arguments of the calls of `next`, in order. -/
def nextCalls : List Event → List (Option JSVal)
  | [] => []
  | .next e :: es => e :: nextCalls es
  | _ :: es => nextCalls es

/-- The calls of the response object `res` (`status`, `send`, `sendStatus`), in order. -/
def resCalls : List Event → List Event
  | [] => []
  | .status c :: es => .status c :: resCalls es
  | .send b :: es => .send b :: resCalls es
  | .sendStatus c :: es => .sendStatus c :: resCalls es
  | _ :: es => resCalls es

/-- The request ends by sending what a call of the core returned: the core was called,
it fulfilled with `r`, the one response carries `r`, and `next` is not called. -/
def SendsCoreResult (env : Env) (tr : List Event) : Prop :=
  ∃ op args r code, Event.core op args ∈ tr ∧ env.core op args = .ok r ∧
    responses tr = [⟨code, .value r⟩] ∧ nextCalls tr = []

/-- The request ends by raising an error through the error channel: `next` is called once,
with a value it raises as an error, and `res` is not touched. -/
def RaisesError (tr : List Event) : Prop :=
  ∃ e, nextCalls tr = [some e] ∧ isErrorArg e = true ∧ resCalls tr = []

/-- The request ends in exactly one of the two ways `SendsCoreResult`, `RaisesError`. -/
def EndsOneOfTwoWays (env : Env) (tr : List Event) : Prop :=
  (SendsCoreResult env tr ∨ RaisesError tr) ∧ ¬ (SendsCoreResult env tr ∧ RaisesError tr)

/-- The number is not a status code the head can be written with: it is `NaN`, infinite,
below 100 (negative numbers down to -2^31 included), or from 1000 up to 2^32 - 1. -/
def OutOfRange (x : JSNum) : Prop :=
  x = .nan ∨ (∃ b, x = .inf b) ∨
    (∃ n, x = .fin false n ∧ (n < 100 ∨ (999 < n ∧ n < 2 ^ 32))) ∨
    (∃ n, x = .fin true n ∧ n ≤ 2 ^ 31)

/-- What a handler with the fixed status code `code` does with the result `r` of the core:
it calls `res.status(code)` and then `res.send(r)`. When `r` is not a number the one
response has status `code` and body `r`. When `r` is a number from 100 to 999 the one
response has status `r` and the message of `r` as body. When `r` is a number out of range,
`send` throws, nothing is written and the error is passed to `next`. -/
def RespondsWith (code : Nat) (r : JSVal) (tr : List Event) : Prop :=
  resCalls tr = [.status code, .send r] ∧
  (isNumber r = false → responses tr = [⟨code, .value r⟩] ∧ nextCalls tr = []) ∧
  (∀ n, r = .num (.fin false n) → 100 ≤ n → n ≤ 999 →
    responses tr = [⟨n, if n = 204 ∨ n = 304 then .empty else .statusMessage n⟩] ∧
    nextCalls tr = []) ∧
  (∀ x, r = .num x → OutOfRange x →
    responses tr = [] ∧ nextCalls tr = [some (invalidStatusCode x)])

/-- The trace makes exactly one call of the core: the operation `op` with `args`. -/
def OnlyCoreCall (op : CoreOp) (args : List JSVal) (tr : List Event) : Prop :=
  coreCalls op tr = [args] ∧ allCoreCalls tr = [args]

/-- The event with the first argument of a call of the core replaced by `b`. -/
def withAccess (b : JSVal) : Event → Event
  | .core op (_ :: rest) => .core op (b :: rest)
  | ev => ev

/-- The error `e` is passed on as it is: `next` is called exactly once, with `e`, `res` is
not called and no response is written. -/
def SurfacesError (e : JSVal) (tr : List Event) : Prop :=
  nextCalls tr = [some e] ∧ resCalls tr = [] ∧ responses tr = []

/-- Whether the event is a call of a validator or of the core. -/
def Event.isValidatorOrCore : Event → Bool
  | .validator _ _ => true
  | .apiValidator _ _ => true
  | .core _ _ => true
  | _ => false

/-! ## Sample collaborators and requests -/

/-- A validator that accepts every object and returns it, and rejects anything else. -/
def acceptObjects (_schema : JSVal) : JSVal → Except JSVal Obj
  | .obj fields => .ok fields
  | _ => .error (.str "ValidationError")

/-- Collaborators that accept: the validators return the payload, the core fulfils with a
host record, the middleware passes an actor descriptor on. -/
def acceptingEnv : Env where
  validator := acceptObjects
  apiValidator := acceptObjects
  core := fun _ _ => .ok (.obj [("id", .num (.fin false 1))])
  jwtdecode := fun _ => .pass (.obj [("scope", .str "admin")])

/-- Collaborators that reject: the validators with a validation error, the core with a
not-found error, the middleware with an authentication error. -/
def rejectingEnv : Env where
  validator := fun _ _ => .error (.str "ValidationError")
  apiValidator := fun _ _ => .error (.str "ValidationError")
  core := fun _ _ => .error (.str "NotFound")
  jwtdecode := fun _ => .fail (.str "Unauthorized")

/-- Collaborators whose validators accept and whose core rejects. -/
def coreRejectingEnv : Env where
  validator := acceptObjects
  apiValidator := acceptObjects
  core := fun _ _ => .error (.str "NotFound")
  jwtdecode := fun _ => .pass (.obj [("scope", .str "admin")])

/-- A request for host 12 with an expand set, a body carrying its own id, and no files. -/
def sampleReq : Req where
  method := .GET
  host_id := "12"
  expand := .str "owner,certificate"
  query := .str "example"
  body := .obj [("id", .num (.fin false 99)), ("forward_port", .num (.fin false 8080))]
  files := .undefined

/-- The sample request with an uploaded certificate file. -/
def uploadReq : Req :=
  { sampleReq with method := .POST, files := .obj [("certificate", .str "PEM")] }

/-- Collaborators whose validators accept and whose core fulfils with the given value. -/
def resultEnv (r : JSVal) : Env where
  validator := acceptObjects
  apiValidator := acceptObjects
  core := fun _ _ => .ok r
  jwtdecode := fun _ => .pass (.obj [("scope", .str "admin")])

/-- Collaborators whose validators reject with the given value. -/
def rejectWithEnv (e : JSVal) : Env where
  validator := fun _ _ => .error e
  apiValidator := fun _ _ => .error e
  core := fun _ _ => .error e
  jwtdecode := fun _ => .pass (.obj [("scope", .str "admin")])

/-- The sample request with the numeral of 2^53 + 1 as path parameter. -/
def bigIdReq : Req := { sampleReq with method := .DELETE, host_id := "9007199254740993" }

/-- The sample request with a path parameter that does not start with a digit. -/
def wordIdReq : Req := { sampleReq with method := .DELETE, host_id := "latest" }

/-- The actor descriptor of the samples. -/
def sampleAccess : JSVal := .obj [("scope", .str "admin")]

/-! ## Lemmas on the value operations -/

theorem getProp_setProp_same (o : Obj) (k : String) (v : JSVal) :
    getProp (setProp o k v) k = v := by
  induction o with
  | nil => simp [setProp, getProp]
  | cons p rest ih =>
    obtain ⟨k', v'⟩ := p
    by_cases h : k' = k
    · simp [setProp, getProp, h]
    · simp [setProp, getProp, h, ih]

theorem getProp_setProp_other (o : Obj) (k j : String) (v : JSVal) (hj : j ≠ k) :
    getProp (setProp o k v) j = getProp o j := by
  induction o with
  | nil => simp [setProp, getProp, Ne.symm hj]
  | cons p rest ih =>
    obtain ⟨k', v'⟩ := p
    by_cases h : k' = k
    · subst h
      simp [setProp, getProp, Ne.symm hj]
    · by_cases h2 : k' = j
      · subst h2
        simp [setProp, getProp, h]
      · simp [setProp, getProp, h, h2, ih]

theorem splitComma_no_comma (cs : List Char) :
    ∀ x ∈ (splitComma cs).1 :: (splitComma cs).2, ',' ∉ x := by
  induction cs with
  | nil => simp [splitComma]
  | cons c cs ih =>
    intro x hx
    by_cases hc : c = ','
    · simp only [splitComma, hc, if_true] at hx
      rcases List.mem_cons.1 hx with h | h
      · subst h; simp
      · exact ih x h
    · simp only [splitComma, hc, if_false] at hx
      rcases List.mem_cons.1 hx with h | h
      · subst h
        have h1 := ih (splitComma cs).1 (List.mem_cons_self _ _)
        intro hmem
        rcases List.mem_cons.1 hmem with h2 | h2
        · exact hc h2.symm
        · exact h1 h2
      · exact ih x (List.mem_cons_of_mem _ h)

theorem joinComma_data (x : String) (rest : List String) :
    (joinComma (x :: rest)).data =
      x.data ++ (match rest with
        | [] => []
        | y :: ys => ',' :: (joinComma (y :: ys)).data) := by
  cases rest with
  | nil => simp [joinComma]
  | cons y ys => simp [joinComma, String.data_append]

theorem joinComma_splitComma (cs : List Char) :
    (joinComma (((splitComma cs).1 :: (splitComma cs).2).map String.mk)).data = cs := by
  induction cs with
  | nil => simp [splitComma, joinComma]
  | cons c cs ih =>
    by_cases hc : c = ','
    · simp only [splitComma, hc, if_true, List.map_cons]
      rw [joinComma_data]
      simp only [List.map_cons] at ih
      simp [ih]
    · simp only [splitComma, hc, if_false, List.map_cons]
      rw [joinComma_data]
      simp only [List.map_cons] at ih
      rw [joinComma_data] at ih
      simp only [List.cons_append]
      rw [ih]

/-! ## Lemmas on `parseInt` -/

theorem digitChar_spec (k : Nat) (hk : k < 10) :
    isDecDigit (Nat.digitChar k) = true ∧ (Nat.digitChar k).toNat - 48 = k := by
  interval_cases k <;> decide

theorem mathInt_append_single (acc : Nat) (pre : List Char) (d : Char) :
    mathInt acc (pre ++ [d]) = 10 * mathInt acc pre + (d.toNat - 48) := by
  induction pre generalizing acc with
  | nil => rfl
  | cons c cs ih => exact ih (10 * acc + (c.toNat - 48))

theorem toDigitsCore_spec : ∀ (fuel n : Nat) (ds : List Char), n < fuel →
    ∃ pre, Nat.toDigitsCore 10 fuel n ds = pre ++ ds ∧ pre ≠ [] ∧
      (∀ c ∈ pre, isDecDigit c = true) ∧ mathInt 0 pre = n := by
  intro fuel
  induction fuel with
  | zero => intro n ds h; omega
  | succ fuel ih =>
    intro n ds hn
    have hd := digitChar_spec (n % 10) (Nat.mod_lt _ (by norm_num))
    by_cases h0 : n / 10 = 0
    · refine ⟨[Nat.digitChar (n % 10)], ?_, by simp, ?_, ?_⟩
      · simp [Nat.toDigitsCore, h0]
      · intro c hc
        rw [List.mem_singleton.1 hc]
        exact hd.1
      · show 10 * 0 + ((Nat.digitChar (n % 10)).toNat - 48) = n
        rw [hd.2]
        omega
    · have hlt : n / 10 < fuel := by omega
      obtain ⟨pre, h1, _, h3, h4⟩ := ih (n / 10) (Nat.digitChar (n % 10) :: ds) hlt
      refine ⟨pre ++ [Nat.digitChar (n % 10)], ?_, by simp, ?_, ?_⟩
      · simp [Nat.toDigitsCore, h0, h1]
      · intro c hc
        rcases List.mem_append.1 hc with h | h
        · exact h3 c h
        · rw [List.mem_singleton.1 h]
          exact hd.1
      · rw [mathInt_append_single, h4, hd.2]
        omega

theorem repr_spec (n : Nat) :
    ∃ pre, (Nat.repr n).data = pre ∧ pre ≠ [] ∧
      (∀ c ∈ pre, isDecDigit c = true) ∧ mathInt 0 pre = n := by
  obtain ⟨pre, h1, h2, h3, h4⟩ := toDigitsCore_spec (n + 1) n [] (Nat.lt_succ_self n)
  refine ⟨pre, ?_, h2, h3, h4⟩
  simp [Nat.repr, Nat.toDigits, h1, List.asString]

theorem digit_not_space (c : Char) (h : isDecDigit c = true) :
    isWhiteSpace c = false ∧ c ≠ '-' ∧ c ≠ '+' := by
  simp only [isDecDigit, Bool.and_eq_true, decide_eq_true_eq] at h
  refine ⟨?_, ?_, ?_⟩
  · simp only [isWhiteSpace, decide_eq_false_iff_not, List.mem_cons, List.mem_singleton,
      List.not_mem_nil, or_false, not_or]
    omega
  · rintro rfl
    revert h
    decide
  · rintro rfl
    revert h
    decide

theorem takeDigits_append (pre rest : List Char) (hpre : ∀ c ∈ pre, isDecDigit c = true)
    (hrest : ∀ c ∈ rest.head?, isDecDigit c = false) : takeDigits (pre ++ rest) = pre := by
  induction pre with
  | nil =>
    cases rest with
    | nil => rfl
    | cons c cs =>
      have := hrest c (by simp)
      simp [takeDigits, this]
  | cons c cs ih =>
    have hc := hpre c (List.mem_cons_self _ _)
    have := ih (fun x hx => hpre x (List.mem_cons_of_mem _ hx))
    simp [takeDigits, hc, this]

theorem parseInt_digits (pre rest : List Char) (hne : pre ≠ [])
    (hpre : ∀ c ∈ pre, isDecDigit c = true)
    (hrest : ∀ c ∈ rest.head?, isDecDigit c = false) :
    parseInt (String.mk (pre ++ rest)) = toNumber false (mathInt 0 pre) := by
  cases pre with
  | nil => exact absurd rfl hne
  | cons c cs =>
    have hc := digit_not_space c (hpre c (List.mem_cons_self _ _))
    have ht := takeDigits_append (c :: cs) rest hpre hrest
    simp only [List.cons_append] at ht
    simp [parseInt, List.dropWhile, hc.1, stripSign, hc.2.1, hc.2.2, ht]

theorem log2Aux_le : ∀ (fuel m k : Nat), m < 2 ^ (k + 1) → log2Aux fuel m ≤ k := by
  intro fuel
  induction fuel with
  | zero => intro m k _; simp [log2Aux]
  | succ fuel ih =>
    intro m k hm
    by_cases h2 : m < 2
    · simp [log2Aux, h2]
    · cases k with
      | zero => simp at hm; omega
      | succ k =>
        have : m / 2 < 2 ^ (k + 1) := by
          rw [Nat.div_lt_iff_lt_mul (by norm_num)]
          calc m < 2 ^ (k + 1 + 1) := hm
            _ = 2 ^ (k + 1) * 2 := by ring
        have := ih (m / 2) k this
        simp only [log2Aux, h2, if_false]
        omega

theorem toNumber_safe (neg : Bool) (n : Nat) (hn : n ≤ 2 ^ 53) :
    toNumber neg n = .fin neg n := by
  have hr : roundToDouble n = n := by
    rcases Nat.lt_or_eq_of_le hn with h | h
    · unfold roundToDouble
      exact if_pos h
    · subst h
      decide
  have hl : ilog2 n ≤ 53 := log2Aux_le n n 53 (by
    calc n ≤ 2 ^ 53 := hn
      _ < 2 ^ (53 + 1) := by norm_num)
  simp only [toNumber, hr]
  rw [if_pos (by omega)]

theorem parseInt_repr_append (n : Nat) (hn : n ≤ 2 ^ 53) (rest : List Char)
    (hrest : ∀ c ∈ rest.head?, isDecDigit c = false) :
    parseInt (String.mk ((Nat.repr n).data ++ rest)) = .fin false n := by
  obtain ⟨pre, h1, h2, h3, h4⟩ := repr_spec n
  rw [h1, parseInt_digits pre rest h2 h3 hrest, h4, toNumber_safe false n hn]

theorem parseInt_repr (n : Nat) (hn : n ≤ 2 ^ 53) : parseInt (Nat.repr n) = .fin false n := by
  have := parseInt_repr_append n hn [] (by simp)
  simpa using this

theorem parseInt_no_digit (c : Char) (cs : List Char) (hd : isDecDigit c = false)
    (hw : isWhiteSpace c = false) (hm : c ≠ '-') (hp : c ≠ '+') :
    parseInt (String.mk (c :: cs)) = .nan := by
  simp [parseInt, List.dropWhile, hw, stripSign, hm, hp, takeDigits, hd]

theorem isWhiteSpace_iff (c : Char) : isWhiteSpace c = true ↔ c ∈ whiteSpaceChars := by
  constructor
  · intro h
    have hc : c = Char.ofNat c.toNat := (Char.ofNat_toNat c).symm
    simp only [isWhiteSpace, decide_eq_true_eq, List.mem_cons, List.mem_singleton,
      List.not_mem_nil, or_false] at h
    rcases h with h | h | h | h | h | h | h | h | h | h | h | h | h | h | h | h | h | h | h |
      h | h | h | h | h | h <;> (rw [h] at hc; rw [hc]; decide)
  · intro h
    simp only [whiteSpaceChars, List.mem_cons, List.mem_singleton, List.not_mem_nil,
      or_false] at h
    rcases h with h | h | h | h | h | h | h | h | h | h | h | h | h | h | h | h | h | h | h |
      h | h | h | h | h | h <;> (rw [h]; decide)

theorem log2Aux_ge : ∀ (fuel m k : Nat), m ≤ fuel → 2 ^ k ≤ m → k ≤ log2Aux fuel m := by
  intro fuel
  induction fuel with
  | zero =>
    intro m k hm hk
    have : 0 < 2 ^ k := by positivity
    omega
  | succ fuel ih =>
    intro m k hm hk
    cases k with
    | zero => exact Nat.zero_le _
    | succ k =>
      have h2 : ¬ m < 2 := by
        have : 2 ^ 1 ≤ 2 ^ (k + 1) := Nat.pow_le_pow_right (by norm_num) (by omega)
        omega
      have hk' : 2 ^ k ≤ m / 2 := by
        rw [Nat.le_div_iff_mul_le (by norm_num)]
        calc 2 ^ k * 2 = 2 ^ (k + 1) := by ring
          _ ≤ m := hk
      have := ih (m / 2) k (by omega) hk'
      simp only [log2Aux, h2, if_false]
      omega

theorem ilog2_eq (m j : Nat) (hlo : 2 ^ j ≤ m) (hhi : m < 2 ^ (j + 1)) : ilog2 m = j :=
  Nat.le_antisymm (log2Aux_le m m j hhi) (log2Aux_ge m m j (Nat.le_refl m) hlo)

theorem ilog2_lt (d j : Nat) (hj : 1 ≤ j) (h : d < 2 ^ j) : ilog2 d < j := by
  obtain ⟨k, rfl⟩ : ∃ k, j = k + 1 := ⟨j - 1, by omega⟩
  exact Nat.lt_succ_of_le (log2Aux_le d d k h)

theorem toNumber_spec (neg : Bool) (m : Nat) :
    toNumber neg m =
      if roundToDouble m < 2 ^ 1024 then .fin neg (roundToDouble m) else .inf neg := by
  unfold toNumber
  by_cases h : roundToDouble m < 2 ^ 1024
  · rw [if_pos h]
    exact if_pos (ilog2_lt (roundToDouble m) 1024 (by decide) h)
  · have h1 : 1024 ≤ ilog2 (roundToDouble m) :=
      log2Aux_ge (roundToDouble m) (roundToDouble m) 1024 (Nat.le_refl _) (Nat.le_of_not_lt h)
    rw [if_neg h]
    exact if_neg (Nat.not_lt.2 h1)

theorem roundToDouble_nearest (m e : Nat) (he : 1 ≤ e) (hlo : 2 ^ (52 + e) ≤ m)
    (hhi : m < 2 ^ (53 + e)) :
    ∃ k, roundToDouble m = k * 2 ^ e ∧ 2 ^ 52 ≤ k ∧ k ≤ 2 ^ 53 ∧
      2 * (k * 2 ^ e) ≤ 2 * m + 2 ^ e ∧ 2 * m ≤ 2 * (k * 2 ^ e) + 2 ^ e ∧
      ((2 * (k * 2 ^ e) = 2 * m + 2 ^ e ∨ 2 * m = 2 * (k * 2 ^ e) + 2 ^ e) → k % 2 = 0) := by
  have hlog : ilog2 m = 52 + e := ilog2_eq m (52 + e) hlo (by
    have : 52 + e + 1 = 53 + e := by omega
    rw [this]
    exact hhi)
  have h53 : ¬ m < 2 ^ 53 := by
    have : 2 ^ 53 ≤ 2 ^ (52 + e) := Nat.pow_le_pow_right (by norm_num) (by omega)
    omega
  have hP : 2 ^ e = 2 * 2 ^ (e - 1) := by
    obtain ⟨d, rfl⟩ : ∃ d, e = d + 1 := ⟨e - 1, by omega⟩
    simp [pow_succ, Nat.mul_comm]
  have hPpos : 0 < 2 ^ e := by positivity
  have hdm : 2 ^ e * (m / 2 ^ e) + m % 2 ^ e = m := Nat.div_add_mod m (2 ^ e)
  have hr : m % 2 ^ e < 2 ^ e := Nat.mod_lt _ hPpos
  have hq1 : 2 ^ 52 ≤ m / 2 ^ e := by
    rw [Nat.le_div_iff_mul_le hPpos]
    calc 2 ^ 52 * 2 ^ e = 2 ^ (52 + e) := by rw [pow_add]
      _ ≤ m := hlo
  have hq2 : m / 2 ^ e < 2 ^ 53 := by
    rw [Nat.div_lt_iff_lt_mul hPpos]
    calc m < 2 ^ (53 + e) := hhi
      _ = 2 ^ 53 * 2 ^ e := by rw [pow_add]
  have hround : roundToDouble m =
      (if 2 ^ (e - 1) < m % 2 ^ e ∨ (m % 2 ^ e = 2 ^ (e - 1) ∧ m / 2 ^ e % 2 = 1)
        then m / 2 ^ e + 1 else m / 2 ^ e) * 2 ^ e := by
    unfold roundToDouble
    rw [if_neg h53]
    simp only [hlog, Nat.add_sub_cancel_left]
  rw [hround]
  generalize hPd : 2 ^ e = P at *
  generalize hHd : 2 ^ (e - 1) = H at *
  generalize hqd : m / P = q at *
  generalize hrd : m % P = r at *
  have hcomm : P * q = q * P := Nat.mul_comm P q
  by_cases hc : H < r ∨ (r = H ∧ q % 2 = 1)
  · rw [if_pos hc]
    refine ⟨q + 1, rfl, by omega, by omega, ?_, ?_, ?_⟩
    · have : (q + 1) * P = q * P + P := by ring
      rcases hc with hc | ⟨hc, _⟩ <;> omega
    · have : (q + 1) * P = q * P + P := by ring
      omega
    · have : (q + 1) * P = q * P + P := by ring
      rcases hc with hc | ⟨hc, hodd⟩ <;> omega
  · rw [if_neg hc]
    have hc1 : ¬ H < r := fun h => hc (Or.inl h)
    have hc2 : ¬ (r = H ∧ q % 2 = 1) := fun h => hc (Or.inr h)
    refine ⟨q, rfl, by omega, by omega, ?_, ?_, ?_⟩
    · omega
    · omega
    · intro h
      have hrH : r = H := by omega
      have : ¬ q % 2 = 1 := fun h' => hc2 ⟨hrH, h'⟩
      omega

theorem mathInt_zeros (z : Nat) (l : List Char) :
    mathInt 0 (List.replicate z '0' ++ l) = mathInt 0 l := by
  induction z with
  | zero => rfl
  | succ z ih =>
    show mathInt (10 * 0 + ('0'.toNat - 48)) (List.replicate z '0' ++ l) = mathInt 0 l
    exact ih

theorem dropWhile_space (ws rest : List Char) (hws : ∀ c ∈ ws, isWhiteSpace c = true)
    (hrest : ∀ c ∈ rest.head?, isWhiteSpace c = false) :
    (ws ++ rest).dropWhile isWhiteSpace = rest := by
  induction ws with
  | nil =>
    cases rest with
    | nil => rfl
    | cons c cs =>
      have := hrest c (by simp)
      simp [List.dropWhile, this]
  | cons c cs ih =>
    have hc := hws c (List.mem_cons_self _ _)
    have := ih (fun x hx => hws x (List.mem_cons_of_mem _ hx))
    simp [List.dropWhile, hc, this]

theorem parseInt_general (ws sign rest : List Char) (z n : Nat)
    (hws : ∀ c ∈ ws, isWhiteSpace c = true) (hsign : sign ∈ [[], ['+'], ['-']])
    (hrest : ∀ c ∈ rest.head?, isDecDigit c = false) :
    parseInt (String.mk (ws ++ sign ++ List.replicate z '0' ++ (Nat.repr n).data ++ rest)) =
      toNumber (decide (sign = ['-'])) n := by
  obtain ⟨pre, h1, h2, h3, h4⟩ := repr_spec n
  rw [h1]
  have hz : ∀ c ∈ List.replicate z '0' ++ pre, isDecDigit c = true := by
    intro c hc
    rcases List.mem_append.1 hc with h | h
    · rw [(List.mem_replicate.1 h).2]
      decide
    · exact h3 c h
  have hne : List.replicate z '0' ++ pre ≠ [] := by
    intro h
    exact h2 (List.append_eq_nil.1 h).2
  have htake : takeDigits (List.replicate z '0' ++ pre ++ rest) = List.replicate z '0' ++ pre :=
    takeDigits_append _ rest hz hrest
  have hval : mathInt 0 (List.replicate z '0' ++ pre) = n := by
    rw [mathInt_zeros, h4]
  obtain ⟨d, ds, hd⟩ : ∃ d ds, List.replicate z '0' ++ pre = d :: ds := by
    cases hl : List.replicate z '0' ++ pre with
    | nil => exact absurd hl hne
    | cons d ds => exact ⟨d, ds, rfl⟩
  have hdd := digit_not_space d (hz d (by rw [hd]; exact List.mem_cons_self _ _))
  have hassoc : ws ++ sign ++ List.replicate z '0' ++ pre ++ rest =
      ws ++ (sign ++ (List.replicate z '0' ++ pre ++ rest)) := by
    simp [List.append_assoc]
  simp only [List.mem_cons, List.mem_singleton, List.not_mem_nil, or_false] at hsign
  unfold parseInt
  simp only [hassoc]
  rcases hsign with rfl | rfl | rfl
  · have hdrop := dropWhile_space ws ([] ++ (List.replicate z '0' ++ pre ++ rest)) hws (by
      intro c hc
      simp only [List.nil_append, hd, List.cons_append, List.head?_cons, Option.mem_def,
        Option.some.injEq] at hc
      rw [← hc]
      exact hdd.1)
    rw [hdrop]
    have hs : stripSign ([] ++ (List.replicate z '0' ++ pre ++ rest)) =
        (false, List.replicate z '0' ++ pre ++ rest) := by
      simp only [List.nil_append, hd, List.cons_append, stripSign, hdd.2.1, hdd.2.2, if_false]
    rw [hs]
    simp only [htake, hne, if_false, hval]
    rfl
  · have hdrop := dropWhile_space ws (['+'] ++ (List.replicate z '0' ++ pre ++ rest)) hws (by
      intro c hc
      simp only [List.singleton_append, List.head?_cons, Option.mem_def,
        Option.some.injEq] at hc
      rw [← hc]
      decide)
    rw [hdrop]
    have hs : stripSign (['+'] ++ (List.replicate z '0' ++ pre ++ rest)) =
        (false, List.replicate z '0' ++ pre ++ rest) := by
      simp [stripSign]
    rw [hs]
    simp only [htake, hne, if_false, hval]
    rfl
  · have hdrop := dropWhile_space ws (['-'] ++ (List.replicate z '0' ++ pre ++ rest)) hws (by
      intro c hc
      simp only [List.singleton_append, List.head?_cons, Option.mem_def,
        Option.some.injEq] at hc
      rw [← hc]
      decide)
    rw [hdrop]
    have hs : stripSign (['-'] ++ (List.replicate z '0' ++ pre ++ rest)) =
        (true, List.replicate z '0' ++ pre ++ rest) := by
      simp [stripSign]
    rw [hs]
    simp only [htake, hne, if_false, hval]
    rfl

theorem parseInt_nan_plain (ws rest : List Char) (hws : ∀ c ∈ ws, isWhiteSpace c = true)
    (hrest : ∀ c ∈ rest.head?,
      isDecDigit c = false ∧ isWhiteSpace c = false ∧ c ≠ '-' ∧ c ≠ '+') :
    parseInt (String.mk (ws ++ rest)) = .nan := by
  unfold parseInt
  simp only []
  rw [dropWhile_space ws rest hws (fun c hc => (hrest c hc).2.1)]
  cases rest with
  | nil => simp [stripSign, takeDigits]
  | cons c cs =>
    obtain ⟨h1, _, h3, h4⟩ := hrest c (by simp)
    simp [stripSign, h3, h4, takeDigits, h1]

theorem parseInt_nan_sign (ws rest : List Char) (sg : Char)
    (hws : ∀ c ∈ ws, isWhiteSpace c = true) (hsg : sg = '-' ∨ sg = '+')
    (hrest : ∀ c ∈ rest.head?, isDecDigit c = false) :
    parseInt (String.mk (ws ++ sg :: rest)) = .nan := by
  unfold parseInt
  simp only []
  rw [dropWhile_space ws (sg :: rest) hws (by
    intro c hc
    simp only [List.head?_cons, Option.mem_def, Option.some.injEq] at hc
    rw [← hc]
    rcases hsg with rfl | rfl <;> decide)]
  have ht : takeDigits rest = [] := by
    cases rest with
    | nil => rfl
    | cons c cs =>
      have := hrest c (by simp)
      simp [takeDigits, this]
  rcases hsg with rfl | rfl <;> simp [stripSign, ht]

theorem parseIntOf_number (n : Nat) (hn : n < 10 ^ 21) :
    parseIntOf (.num (.fin false n)) = parseInt (Nat.repr n) := by
  have hn' : n < 1000000000000000000000 := hn
  simp [parseIntOf, toStringJS, numberToString, hn']

/-! ## Lemmas on the promise chain -/

theorem sendOutcome_value (code : Nat) (r : JSVal) (hr : isNumber r = false)
    (hv : validStatus code = true) (hc : ¬ (code = 204 ∨ code = 304)) :
    sendOutcome code r = .ok ⟨code, .value r⟩ := by
  cases r <;> simp_all [sendOutcome, isNumber]

theorem callCore_ok (env : Env) (op : CoreOp) (args : List JSVal) (code : Nat) (r : JSVal)
    (resp : Response) (h : env.core op args = .ok r) (hs : sendOutcome code r = .ok resp) :
    callCore env op args code = [.core op args, .status code, .send r] := by
  simp [callCore, h, hs]

theorem callCore_throw (env : Env) (op : CoreOp) (args : List JSVal) (code : Nat) (r : JSVal)
    (err : JSVal) (h : env.core op args = .ok r) (hs : sendOutcome code r = .error err) :
    callCore env op args code =
      [.core op args, .status code, .send r, .next (some err)] := by
  simp [callCore, h, hs]

theorem callCore_error (env : Env) (op : CoreOp) (args : List JSVal) (code : Nat) (e : JSVal)
    (h : env.core op args = .error e) :
    callCore env op args code = [.core op args, .next (some e)] := by
  simp [callCore, h]

theorem allCoreCalls_callCore (env : Env) (op : CoreOp) (args : List JSVal) (code : Nat) :
    allCoreCalls (callCore env op args code) = [args] := by
  unfold callCore
  cases hc : env.core op args with
  | error e => simp [allCoreCalls]
  | ok r => cases hs : sendOutcome code r <;> simp [allCoreCalls, hs]

theorem coreCalls_callCore (env : Env) (op : CoreOp) (args : List JSVal) (code : Nat) :
    coreCalls op (callCore env op args code) = [args] := by
  unfold callCore
  cases hc : env.core op args with
  | error e => simp [coreCalls]
  | ok r => cases hs : sendOutcome code r <;> simp [coreCalls, hs]

/-! ## The claims -/

/-- C1: on `POST /:host_id/certificates`, a request whose `req.files` is falsy is answered
with status 400 and body `{error: 'No files were uploaded'}`, `setCerts` (and any other core
operation) is not called and no response with status 200 is sent; a request that carries
files makes exactly one call of `setCerts`, with that same `req.files` value. -/
theorem certs_files_guard (env : Env) (req : Req) (access : JSVal) :
    (truthy req.files = false →
      certsHandler env req access = [.status 400, .send noFilesBody] ∧
      responses (certsHandler env req access) =
        [⟨400, .value (.obj [("error", .str "No files were uploaded")])⟩] ∧
      coreCalls .setCerts (certsHandler env req access) = [] ∧
      allCoreCalls (certsHandler env req access) = [] ∧
      ∀ r ∈ responses (certsHandler env req access), r.status ≠ 200) ∧
    (truthy req.files = true →
      coreCalls .setCerts (certsHandler env req access) =
        [[access, .obj [("id", .num (parseInt req.host_id)), ("files", req.files)]]] ∧
      allCoreCalls (certsHandler env req access) =
        [[access, .obj [("id", .num (parseInt req.host_id)), ("files", req.files)]]]) := by
  constructor
  · intro h
    simp [certsHandler, h, responses, responsesFrom, coreCalls, allCoreCalls, noFilesBody,
      sendOutcome, validStatus]
  · intro h
    simp [certsHandler, h, coreCalls_callCore, allCoreCalls_callCore]

theorem certs_files_guard_witness :
    (truthy sampleReq.files = false ∧
      certsHandler acceptingEnv sampleReq sampleAccess = [.status 400, .send noFilesBody]) ∧
    (truthy uploadReq.files = true ∧
      coreCalls .setCerts (certsHandler acceptingEnv uploadReq sampleAccess) =
        [[sampleAccess, .obj [("id", .num (parseInt uploadReq.host_id)),
          ("files", uploadReq.files)]]]) :=
  ⟨⟨rfl, ((certs_files_guard acceptingEnv sampleReq sampleAccess).1 rfl).1⟩,
    ⟨rfl, ((certs_files_guard acceptingEnv uploadReq sampleAccess).2 rfl).1⟩⟩

/-- C4: in create, update, list and get the validator is called first, on the request data.
When it rejects, no core operation is called and no response is sent. When it accepts with
a payload, the core is called once, after the validator, and what it receives is taken from
the validator's output: the payload itself for create, the payload with `id` set for
update, its `expand` and `query` for list, and its `host_id` (parsed) and `expand` for
get. -/
theorem validation_before_core (env : Env) (req : Req) (access : JSVal) :
    ((∀ e, env.apiValidator createSchema req.body = .error e →
        createHandler env req access =
          [.apiValidator createSchema req.body, .next (some e)] ∧
        allCoreCalls (createHandler env req access) = [] ∧
        responses (createHandler env req access) = []) ∧
      (∀ payload, env.apiValidator createSchema req.body = .ok payload →
        createHandler env req access = .apiValidator createSchema req.body ::
          callCore env .create [access, .obj payload] 201 ∧
        allCoreCalls (createHandler env req access) = [[access, .obj payload]])) ∧
    ((∀ e, env.apiValidator updateSchema req.body = .error e →
        updateHandler env req access =
          [.apiValidator updateSchema req.body, .next (some e)] ∧
        allCoreCalls (updateHandler env req access) = [] ∧
        responses (updateHandler env req access) = []) ∧
      (∀ payload, env.apiValidator updateSchema req.body = .ok payload →
        updateHandler env req access = .apiValidator updateSchema req.body ::
          callCore env .update
            [access, .obj (setProp payload "id" (.num (parseInt req.host_id)))] 200 ∧
        allCoreCalls (updateHandler env req access) =
          [[access, .obj (setProp payload "id" (.num (parseInt req.host_id)))]])) ∧
    ((∀ e, env.validator listSchema (listInput req) = .error e →
        listHandler env req access =
          [.validator listSchema (listInput req), .next (some e)] ∧
        allCoreCalls (listHandler env req access) = [] ∧
        responses (listHandler env req access) = []) ∧
      (∀ data, env.validator listSchema (listInput req) = .ok data →
        listHandler env req access = .validator listSchema (listInput req) ::
          callCore env .getAll [access, getProp data "expand", getProp data "query"] 200 ∧
        allCoreCalls (listHandler env req access) =
          [[access, getProp data "expand", getProp data "query"]])) ∧
    ((∀ e, env.validator getSchema (getInput req) = .error e →
        getHandler env req access =
          [.validator getSchema (getInput req), .next (some e)] ∧
        allCoreCalls (getHandler env req access) = [] ∧
        responses (getHandler env req access) = []) ∧
      (∀ data, env.validator getSchema (getInput req) = .ok data →
        getHandler env req access = .validator getSchema (getInput req) ::
          callCore env .get [access,
            .obj [("id", .num (parseIntOf (getProp data "host_id"))),
              ("expand", getProp data "expand")]] 200 ∧
        allCoreCalls (getHandler env req access) =
          [[access, .obj [("id", .num (parseIntOf (getProp data "host_id"))),
            ("expand", getProp data "expand")]]])) := by
  refine ⟨⟨?_, ?_⟩, ⟨?_, ?_⟩, ⟨?_, ?_⟩, ⟨?_, ?_⟩⟩
  · intro e h
    simp [createHandler, h, allCoreCalls, responses, responsesFrom]
  · intro payload h
    simp [createHandler, h, allCoreCalls, allCoreCalls_callCore]
  · intro e h
    simp [updateHandler, h, allCoreCalls, responses, responsesFrom]
  · intro payload h
    simp [updateHandler, h, allCoreCalls, allCoreCalls_callCore]
  · intro e h
    simp [listHandler, h, allCoreCalls, responses, responsesFrom]
  · intro data h
    simp [listHandler, h, allCoreCalls, allCoreCalls_callCore]
  · intro e h
    simp [getHandler, h, allCoreCalls, responses, responsesFrom]
  · intro data h
    simp [getHandler, h, allCoreCalls, allCoreCalls_callCore]

theorem validation_before_core_witness :
    rejectingEnv.apiValidator createSchema sampleReq.body = .error (.str "ValidationError") ∧
    allCoreCalls (createHandler rejectingEnv sampleReq sampleAccess) = [] ∧
    allCoreCalls (createHandler acceptingEnv sampleReq sampleAccess) =
      [[sampleAccess, sampleReq.body]] ∧
    allCoreCalls (updateHandler acceptingEnv sampleReq sampleAccess) =
      [[sampleAccess, .obj [("id", .num (.fin false 12)),
        ("forward_port", .num (.fin false 8080))]]] ∧
    allCoreCalls (listHandler rejectingEnv sampleReq sampleAccess) = [] ∧
    allCoreCalls (listHandler acceptingEnv sampleReq sampleAccess) =
      [[sampleAccess, .arr [.str "owner", .str "certificate"], .str "example"]] ∧
    allCoreCalls (getHandler rejectingEnv sampleReq sampleAccess) = [] ∧
    allCoreCalls (getHandler acceptingEnv sampleReq sampleAccess) =
      [[sampleAccess, .obj [("id", .num (.fin false 12)),
        ("expand", .arr [.str "owner", .str "certificate"])]]] :=
  ⟨rfl,
    ((validation_before_core rejectingEnv sampleReq sampleAccess).1.1 _ rfl).2.1,
    ((validation_before_core acceptingEnv sampleReq sampleAccess).1.2 _ rfl).2,
    ((validation_before_core acceptingEnv sampleReq sampleAccess).2.1.2 _ rfl).2,
    ((validation_before_core rejectingEnv sampleReq sampleAccess).2.2.1.1 _ rfl).2.1,
    ((validation_before_core acceptingEnv sampleReq sampleAccess).2.2.1.2 _ rfl).2,
    ((validation_before_core rejectingEnv sampleReq sampleAccess).2.2.2.1 _ rfl).2.1,
    ((validation_before_core acceptingEnv sampleReq sampleAccess).2.2.2.2 _ rfl).2⟩

theorem endsOneOfTwoWays_callCore (env : Env) (pre : List Event) (op : CoreOp)
    (args : List JSVal) (code : Nat) (hv : validStatus code = true)
    (hcode : ¬ (code = 204 ∨ code = 304))
    (hres : ∀ r, env.core op args = .ok r → isNumber r = false)
    (hrej : ∀ e, env.core op args = .error e → isErrorArg e = true)
    (h1 : responsesFrom 200 (pre ++ callCore env op args code) =
      responsesFrom 200 (callCore env op args code))
    (h2 : nextCalls (pre ++ callCore env op args code) = nextCalls (callCore env op args code))
    (h3 : resCalls (pre ++ callCore env op args code) = resCalls (callCore env op args code)) :
    EndsOneOfTwoWays env (pre ++ callCore env op args code) := by
  unfold EndsOneOfTwoWays SendsCoreResult RaisesError responses
  rw [h1, h2, h3]
  cases hc : env.core op args with
  | ok r =>
    have hs := sendOutcome_value code r (hres r hc) hv hcode
    rw [callCore_ok env op args code r _ hc hs]
    refine ⟨Or.inl ⟨op, args, r, code, ?_, hc, ?_, ?_⟩, ?_⟩
    · simp
    · simp [responsesFrom, hs]
    · simp [nextCalls]
    · rintro ⟨_, e, h, _⟩
      simp [nextCalls] at h
  | error e =>
    rw [callCore_error env op args code e hc]
    refine ⟨Or.inr ⟨e, ?_, hrej e hc, ?_⟩, ?_⟩
    · simp [nextCalls]
    · simp [resCalls]
    · rintro ⟨⟨_, _, _, _, _, _, h, _⟩, _⟩
      simp [responsesFrom] at h

theorem endsOneOfTwoWays_reject (env : Env) (pre : List Event) (e : JSVal)
    (he : isErrorArg e = true)
    (h1 : responsesFrom 200 (pre ++ [.next (some e)]) = [])
    (h2 : nextCalls (pre ++ [.next (some e)]) = [some e])
    (h3 : resCalls (pre ++ [.next (some e)]) = []) :
    EndsOneOfTwoWays env (pre ++ [.next (some e)]) := by
  unfold EndsOneOfTwoWays SendsCoreResult RaisesError responses
  rw [h1, h2, h3]
  refine ⟨Or.inr ⟨e, rfl, he, rfl⟩, ?_⟩
  rintro ⟨⟨_, _, _, _, _, _, h, _⟩, _⟩
  simp at h

/-- C2 (as stated, refuted): a certificates request without files ends neither with the
result of a core call nor with an error passed to `next`: the route writes a 400 response
itself. Nor does delete end in one of the two ways when the core fulfils with the number
1: `res.status` and `res.send` are called, `send` throws and the error goes to `next`. Nor
does list when the validator rejects with `undefined`: `next(undefined)` raises no
error. -/
theorem certs_ends_third_way :
    (certsHandler acceptingEnv sampleReq sampleAccess = [.status 400, .send noFilesBody] ∧
      ¬ (SendsCoreResult acceptingEnv (certsHandler acceptingEnv sampleReq sampleAccess) ∨
          RaisesError (certsHandler acceptingEnv sampleReq sampleAccess))) ∧
    (deleteHandler (resultEnv (.num (.fin false 1))) sampleReq sampleAccess =
        [.core .delete [sampleAccess, .obj [("id", .num (.fin false 12))]],
          .status 200, .send (.num (.fin false 1)),
          .next (some (invalidStatusCode (.fin false 1)))] ∧
      ¬ (SendsCoreResult (resultEnv (.num (.fin false 1)))
            (deleteHandler (resultEnv (.num (.fin false 1))) sampleReq sampleAccess) ∨
          RaisesError
            (deleteHandler (resultEnv (.num (.fin false 1))) sampleReq sampleAccess))) ∧
    (listHandler (rejectWithEnv .undefined) sampleReq sampleAccess =
        [.validator listSchema (listInput sampleReq), .next (some .undefined)] ∧
      ¬ (SendsCoreResult (rejectWithEnv .undefined)
            (listHandler (rejectWithEnv .undefined) sampleReq sampleAccess) ∨
          RaisesError (listHandler (rejectWithEnv .undefined) sampleReq sampleAccess))) := by
  refine ⟨?_, ?_, ?_⟩
  · have h : certsHandler acceptingEnv sampleReq sampleAccess =
        [.status 400, .send noFilesBody] := rfl
    refine ⟨h, ?_⟩
    rw [h]
    rintro (⟨_, _, _, _, hmem, _⟩ | ⟨_, hn, _⟩)
    · simp at hmem
    · simp [nextCalls] at hn
  · have h : deleteHandler (resultEnv (.num (.fin false 1))) sampleReq sampleAccess =
        [.core .delete [sampleAccess, .obj [("id", .num (.fin false 12))]],
          .status 200, .send (.num (.fin false 1)),
          .next (some (invalidStatusCode (.fin false 1)))] := rfl
    refine ⟨h, ?_⟩
    rw [h]
    rintro (⟨_, _, _, _, _, _, _, hn⟩ | ⟨_, _, _, hr⟩)
    · simp [nextCalls] at hn
    · simp [resCalls] at hr
  · have h : listHandler (rejectWithEnv .undefined) sampleReq sampleAccess =
        [.validator listSchema (listInput sampleReq), .next (some .undefined)] := rfl
    refine ⟨h, ?_⟩
    rw [h]
    rintro (⟨_, _, _, _, hmem, _⟩ | ⟨e, hn, he, _⟩)
    · simp at hmem
    · simp only [nextCalls, List.cons.injEq, Option.some.injEq, and_true] at hn
      subst hn
      simp [isErrorArg, truthy] at he

/-- C2 (amended): when the core does not fulfil with a number and every rejection of a
collaborator carries a value `next` raises as an error (a truthy value other than `'route'`
and `'router'`), list, create, get, update and delete end, for every request, in exactly
one of two ways: the result of the core call is sent, or an error is passed to `next`. The
certificates operation then ends in one of these two ways when the request carries files,
and in a third way when it does not: the route itself answers 400 with
`{error: 'No files were uploaded'}`, with no core call and no call of `next`. -/
theorem ends_two_ways_or_no_files (env : Env) (req : Req) (access : JSVal)
    (hres : ∀ op args r, env.core op args = .ok r → isNumber r = false)
    (hrej : ∀ e, ((∃ op args, env.core op args = .error e) ∨
        (∃ schema payload, env.validator schema payload = .error e) ∨
        (∃ schema payload, env.apiValidator schema payload = .error e)) →
      isErrorArg e = true) :
    EndsOneOfTwoWays env (listHandler env req access) ∧
    EndsOneOfTwoWays env (createHandler env req access) ∧
    EndsOneOfTwoWays env (getHandler env req access) ∧
    EndsOneOfTwoWays env (updateHandler env req access) ∧
    EndsOneOfTwoWays env (deleteHandler env req access) ∧
    (truthy req.files = true → EndsOneOfTwoWays env (certsHandler env req access)) ∧
    (truthy req.files = false →
      certsHandler env req access = [.status 400, .send noFilesBody] ∧
      allCoreCalls (certsHandler env req access) = [] ∧
      nextCalls (certsHandler env req access) = [] ∧
      ¬ SendsCoreResult env (certsHandler env req access) ∧
      ¬ RaisesError (certsHandler env req access)) := by
  have hcore : ∀ (pre : List Event) (op : CoreOp) (args : List JSVal) (code : Nat),
      validStatus code = true → ¬ (code = 204 ∨ code = 304) →
      responsesFrom 200 (pre ++ callCore env op args code) =
        responsesFrom 200 (callCore env op args code) →
      nextCalls (pre ++ callCore env op args code) = nextCalls (callCore env op args code) →
      resCalls (pre ++ callCore env op args code) = resCalls (callCore env op args code) →
      EndsOneOfTwoWays env (pre ++ callCore env op args code) := by
    intro pre op args code hv hcode h1 h2 h3
    exact endsOneOfTwoWays_callCore env pre op args code hv hcode
      (fun r hr => hres op args r hr) (fun e he => hrej e (Or.inl ⟨op, args, he⟩)) h1 h2 h3
  refine ⟨?_, ?_, ?_, ?_, ?_, ?_, ?_⟩
  · simp only [listHandler]
    cases hv : env.validator listSchema (listInput req) with
    | ok data => exact hcore [.validator _ _] .getAll _ 200 (by decide) (by decide) rfl rfl rfl
    | error e =>
      exact endsOneOfTwoWays_reject env [.validator _ _] e
        (hrej e (Or.inr (Or.inl ⟨_, _, hv⟩))) rfl rfl rfl
  · simp only [createHandler]
    cases hv : env.apiValidator createSchema req.body with
    | ok data =>
      exact hcore [.apiValidator _ _] .create _ 201 (by decide) (by decide) rfl rfl rfl
    | error e =>
      exact endsOneOfTwoWays_reject env [.apiValidator _ _] e
        (hrej e (Or.inr (Or.inr ⟨_, _, hv⟩))) rfl rfl rfl
  · simp only [getHandler]
    cases hv : env.validator getSchema (getInput req) with
    | ok data => exact hcore [.validator _ _] .get _ 200 (by decide) (by decide) rfl rfl rfl
    | error e =>
      exact endsOneOfTwoWays_reject env [.validator _ _] e
        (hrej e (Or.inr (Or.inl ⟨_, _, hv⟩))) rfl rfl rfl
  · simp only [updateHandler]
    cases hv : env.apiValidator updateSchema req.body with
    | ok data =>
      exact hcore [.apiValidator _ _] .update _ 200 (by decide) (by decide) rfl rfl rfl
    | error e =>
      exact endsOneOfTwoWays_reject env [.apiValidator _ _] e
        (hrej e (Or.inr (Or.inr ⟨_, _, hv⟩))) rfl rfl rfl
  · exact hcore [] .delete _ 200 (by decide) (by decide) rfl rfl rfl
  · intro h
    simp only [certsHandler, h]
    exact hcore [] .setCerts _ 200 (by decide) (by decide) rfl rfl rfl
  · intro h
    have ht : certsHandler env req access = [.status 400, .send noFilesBody] := by
      simp [certsHandler, h]
    rw [ht]
    refine ⟨rfl, rfl, rfl, ?_, ?_⟩
    · rintro ⟨_, _, _, _, hmem, _⟩
      simp at hmem
    · rintro ⟨_, hn, _⟩
      simp [nextCalls] at hn

theorem acceptingEnv_results (op : CoreOp) (args : List JSVal) (r : JSVal)
    (h : acceptingEnv.core op args = .ok r) : isNumber r = false := by
  simp only [acceptingEnv, Except.ok.injEq] at h
  subst h
  rfl

theorem acceptObjects_rejections (schema payload e : JSVal)
    (h : acceptObjects schema payload = .error e) : isErrorArg e = true := by
  cases payload <;> simp [acceptObjects] at h <;> subst h <;> decide

theorem acceptingEnv_rejections (e : JSVal)
    (h : (∃ op args, acceptingEnv.core op args = .error e) ∨
      (∃ schema payload, acceptingEnv.validator schema payload = .error e) ∨
      (∃ schema payload, acceptingEnv.apiValidator schema payload = .error e)) :
    isErrorArg e = true := by
  rcases h with ⟨_, _, h⟩ | ⟨s, p, h⟩ | ⟨s, p, h⟩
  · simp [acceptingEnv] at h
  · exact acceptObjects_rejections s p e h
  · exact acceptObjects_rejections s p e h

theorem rejectingEnv_rejections (e : JSVal)
    (h : (∃ op args, rejectingEnv.core op args = .error e) ∨
      (∃ schema payload, rejectingEnv.validator schema payload = .error e) ∨
      (∃ schema payload, rejectingEnv.apiValidator schema payload = .error e)) :
    isErrorArg e = true := by
  rcases h with ⟨_, _, h⟩ | ⟨_, _, h⟩ | ⟨_, _, h⟩ <;>
    simp only [rejectingEnv, Except.error.injEq] at h <;> subst h <;> decide

theorem ends_two_ways_or_no_files_witness :
    (truthy uploadReq.files = true ∧
      EndsOneOfTwoWays acceptingEnv (certsHandler acceptingEnv uploadReq sampleAccess)) ∧
    (truthy sampleReq.files = false ∧
      certsHandler acceptingEnv sampleReq sampleAccess = [.status 400, .send noFilesBody]) ∧
    EndsOneOfTwoWays acceptingEnv (updateHandler acceptingEnv sampleReq sampleAccess) ∧
    EndsOneOfTwoWays rejectingEnv (listHandler rejectingEnv sampleReq sampleAccess) :=
  ⟨⟨rfl, (ends_two_ways_or_no_files acceptingEnv uploadReq sampleAccess
      acceptingEnv_results acceptingEnv_rejections).2.2.2.2.2.1 rfl⟩,
    ⟨rfl, ((ends_two_ways_or_no_files acceptingEnv sampleReq sampleAccess
      acceptingEnv_results acceptingEnv_rejections).2.2.2.2.2.2 rfl).1⟩,
    (ends_two_ways_or_no_files acceptingEnv sampleReq sampleAccess
      acceptingEnv_results acceptingEnv_rejections).2.2.2.1,
    (ends_two_ways_or_no_files rejectingEnv sampleReq sampleAccess
      (fun _ _ _ h => by simp [rejectingEnv] at h) rejectingEnv_rejections).1⟩

theorem statusOf_valid (n : Nat) (h1 : 100 ≤ n) (h2 : n ≤ 999) :
    statusOf (.fin false n) = some n := by
  have h : n % 4294967296 = n := Nat.mod_eq_of_lt (by omega)
  simp [statusOf, toInt32Residue, validStatus, h, h1, h2]

theorem statusOf_outOfRange (x : JSNum) (h : OutOfRange x) : statusOf x = none := by
  rcases h with rfl | ⟨b, rfl⟩ | ⟨n, rfl, h⟩ | ⟨n, rfl, h⟩
  · simp [statusOf, toInt32Residue, validStatus]
  · simp [statusOf, toInt32Residue, validStatus]
  · have hn : n % 2 ^ 32 = n := Nat.mod_eq_of_lt (by omega)
    simp only [statusOf, toInt32Residue, validStatus, hn, Bool.false_eq_true, if_false,
      Bool.and_eq_true, decide_eq_true_eq, ite_eq_right_iff, reduceCtorEq, imp_false]
    omega
  · simp only [statusOf, toInt32Residue, validStatus, if_true, Bool.and_eq_true,
      decide_eq_true_eq, ite_eq_right_iff, reduceCtorEq, imp_false]
    omega

theorem respondsWith_callCore (env : Env) (pre : List Event) (op : CoreOp)
    (args : List JSVal) (code : Nat) (r : JSVal) (hv : validStatus code = true)
    (hcode : ¬ (code = 204 ∨ code = 304)) (h : env.core op args = .ok r)
    (h1 : responsesFrom 200 (pre ++ callCore env op args code) =
      responsesFrom 200 (callCore env op args code))
    (h2 : nextCalls (pre ++ callCore env op args code) = nextCalls (callCore env op args code))
    (h3 : resCalls (pre ++ callCore env op args code) = resCalls (callCore env op args code)) :
    RespondsWith code r (pre ++ callCore env op args code) := by
  unfold RespondsWith responses
  rw [h1, h2, h3]
  have hres : resCalls (callCore env op args code) = [.status code, .send r] := by
    unfold callCore
    cases hs : sendOutcome code r <;> simp [h, hs, resCalls]
  refine ⟨hres, ?_, ?_, ?_⟩
  · intro hr
    have hs := sendOutcome_value code r hr hv hcode
    rw [callCore_ok env op args code r _ h hs]
    simp [responsesFrom, nextCalls, hs]
  · rintro n rfl hn1 hn2
    have hs : sendOutcome code (.num (.fin false n)) =
        .ok ⟨n, if n = 204 ∨ n = 304 then .empty else .statusMessage n⟩ := by
      simp [sendOutcome, statusOf_valid n hn1 hn2, numericBody]
    rw [callCore_ok env op args code _ _ h hs]
    simp [responsesFrom, nextCalls, hs]
  · rintro x rfl hx
    have hs : sendOutcome code (.num x) = .error (invalidStatusCode x) := by
      simp [sendOutcome, statusOf_outOfRange x hx]
    rw [callCore_throw env op args code _ _ h hs]
    simp [responsesFrom, nextCalls, hs]

/-- C3 (as stated, refuted): when the core fulfils with the number 404, delete answers
with status 404 and the message of 404, not with status 200 and body 404; create with the
result 500 answers 500, not 201; and with the result 1 `send` throws, nothing is written
and the error goes to `next`. The status does depend on the result. -/
theorem numeric_result_sets_status :
    (resultEnv (.num (.fin false 404))).core .delete
        [sampleAccess, .obj [("id", .num (.fin false 12))]] = .ok (.num (.fin false 404)) ∧
    responses (deleteHandler (resultEnv (.num (.fin false 404))) sampleReq sampleAccess) =
      [⟨404, .statusMessage 404⟩] ∧
    responses (deleteHandler (resultEnv (.num (.fin false 404))) sampleReq sampleAccess) ≠
      [⟨200, .value (.num (.fin false 404))⟩] ∧
    responses (createHandler (resultEnv (.num (.fin false 500))) sampleReq sampleAccess) =
      [⟨500, .statusMessage 500⟩] ∧
    deleteHandler (resultEnv (.num (.fin false 1))) sampleReq sampleAccess =
      [.core .delete [sampleAccess, .obj [("id", .num (.fin false 12))]],
        .status 200, .send (.num (.fin false 1)),
        .next (some (.obj [("name", .str "RangeError"),
          ("message", .str "Invalid status code: 1")]))] ∧
    responses (deleteHandler (resultEnv (.num (.fin false 1))) sampleReq sampleAccess) =
      [] := by
  refine ⟨rfl, rfl, ?_, rfl, rfl, rfl⟩
  intro h
  have h2 : responses (deleteHandler (resultEnv (.num (.fin false 404))) sampleReq
      sampleAccess) = [⟨404, .statusMessage 404⟩] := rfl
  rw [h2] at h
  simp at h

/-- C3 (amended): when the core operation a handler called fulfils with `r`, the handler
calls `res.status` with a code fixed by the operation, 201 for create and 200 for list,
get, update, delete and setCerts, and then `res.send(r)`. When `r` is not a number the one
response has that status and body `r`. When `r` is a number, `send` takes it as the status
code: from 100 to 999 the response has status `r` and its message as body, and out of
that range `send` throws, nothing is written and the error is passed to `next`. -/
theorem success_status (env : Env) (req : Req) (access : JSVal) (r : JSVal) :
    (∀ data, env.validator listSchema (listInput req) = .ok data →
      env.core .getAll [access, getProp data "expand", getProp data "query"] = .ok r →
      RespondsWith 200 r (listHandler env req access)) ∧
    (∀ payload, env.apiValidator createSchema req.body = .ok payload →
      env.core .create [access, .obj payload] = .ok r →
      RespondsWith 201 r (createHandler env req access)) ∧
    (∀ data, env.validator getSchema (getInput req) = .ok data →
      env.core .get [access, .obj [("id", .num (parseIntOf (getProp data "host_id"))),
        ("expand", getProp data "expand")]] = .ok r →
      RespondsWith 200 r (getHandler env req access)) ∧
    (∀ payload, env.apiValidator updateSchema req.body = .ok payload →
      env.core .update
        [access, .obj (setProp payload "id" (.num (parseInt req.host_id)))] = .ok r →
      RespondsWith 200 r (updateHandler env req access)) ∧
    (env.core .delete [access, .obj [("id", .num (parseInt req.host_id))]] = .ok r →
      RespondsWith 200 r (deleteHandler env req access)) ∧
    (truthy req.files = true →
      env.core .setCerts
        [access, .obj [("id", .num (parseInt req.host_id)), ("files", req.files)]] = .ok r →
      RespondsWith 200 r (certsHandler env req access)) := by
  refine ⟨?_, ?_, ?_, ?_, ?_, ?_⟩
  · intro data hv hc
    simp only [listHandler, hv]
    exact respondsWith_callCore env [.validator _ _] .getAll _ 200 r (by decide) (by decide)
      hc rfl rfl rfl
  · intro payload hv hc
    simp only [createHandler, hv]
    exact respondsWith_callCore env [.apiValidator _ _] .create _ 201 r (by decide)
      (by decide) hc rfl rfl rfl
  · intro data hv hc
    simp only [getHandler, hv]
    exact respondsWith_callCore env [.validator _ _] .get _ 200 r (by decide) (by decide)
      hc rfl rfl rfl
  · intro payload hv hc
    simp only [updateHandler, hv]
    exact respondsWith_callCore env [.apiValidator _ _] .update _ 200 r (by decide)
      (by decide) hc rfl rfl rfl
  · intro hc
    exact respondsWith_callCore env [] .delete _ 200 r (by decide) (by decide) hc rfl rfl rfl
  · intro hf hc
    simp only [certsHandler, hf]
    exact respondsWith_callCore env [] .setCerts _ 200 r (by decide) (by decide) hc
      rfl rfl rfl

theorem success_status_witness :
    (responses (listHandler acceptingEnv sampleReq sampleAccess) =
        [⟨200, .value (.obj [("id", .num (.fin false 1))])⟩] ∧
      responses (createHandler acceptingEnv sampleReq sampleAccess) =
        [⟨201, .value (.obj [("id", .num (.fin false 1))])⟩] ∧
      responses (getHandler acceptingEnv sampleReq sampleAccess) =
        [⟨200, .value (.obj [("id", .num (.fin false 1))])⟩] ∧
      responses (updateHandler acceptingEnv sampleReq sampleAccess) =
        [⟨200, .value (.obj [("id", .num (.fin false 1))])⟩] ∧
      responses (deleteHandler acceptingEnv sampleReq sampleAccess) =
        [⟨200, .value (.obj [("id", .num (.fin false 1))])⟩] ∧
      truthy uploadReq.files = true ∧
      responses (certsHandler acceptingEnv uploadReq sampleAccess) =
        [⟨200, .value (.obj [("id", .num (.fin false 1))])⟩]) ∧
    (resCalls (createHandler (resultEnv (.num (.fin false 500))) sampleReq sampleAccess) =
        [.status 201, .send (.num (.fin false 500))] ∧
      responses (createHandler (resultEnv (.num (.fin false 500))) sampleReq sampleAccess) =
        [⟨500, .statusMessage 500⟩]) ∧
    (OutOfRange (.fin false 1) ∧
      nextCalls (deleteHandler (resultEnv (.num (.fin false 1))) sampleReq sampleAccess) =
        [some (invalidStatusCode (.fin false 1))]) :=
  ⟨⟨(((success_status acceptingEnv sampleReq sampleAccess _).1 _ rfl rfl).2.1 rfl).1,
      (((success_status acceptingEnv sampleReq sampleAccess _).2.1 _ rfl rfl).2.1 rfl).1,
      (((success_status acceptingEnv sampleReq sampleAccess _).2.2.1 _ rfl rfl).2.1 rfl).1,
      (((success_status acceptingEnv sampleReq sampleAccess _).2.2.2.1 _ rfl rfl).2.1 rfl).1,
      (((success_status acceptingEnv sampleReq sampleAccess _).2.2.2.2.1 rfl).2.1 rfl).1,
      rfl,
      (((success_status acceptingEnv uploadReq sampleAccess _).2.2.2.2.2 rfl rfl).2.1 rfl).1⟩,
    ⟨((success_status (resultEnv (.num (.fin false 500))) sampleReq sampleAccess _).2.1 _ rfl
        rfl).1,
      (((success_status (resultEnv (.num (.fin false 500))) sampleReq sampleAccess _).2.1 _ rfl
        rfl).2.2.1 500 rfl (by norm_num) (by norm_num)).1⟩,
    ⟨Or.inr (Or.inr (Or.inl ⟨1, rfl, Or.inl (by norm_num)⟩)),
      (((success_status (resultEnv (.num (.fin false 1))) sampleReq sampleAccess _).2.2.2.2.1
        rfl).2.2.2 _ rfl (Or.inr (Or.inr (Or.inl ⟨1, rfl, Or.inl (by norm_num)⟩)))).2⟩⟩

/-- C5: in every handler, when the validator rejects the handler's input with `e`, or the
validator accepts and the core operation rejects the handler's call with `e`, the handler
calls `next` exactly once, with exactly `e`, after the calls of the collaborators, and makes
no call of `res` (no status, no body, no response). -/
theorem errors_surfaced_as_is (env : Env) (req : Req) (access : JSVal) (e : JSVal) :
    ((env.validator listSchema (listInput req) = .error e →
        listHandler env req access =
          [.validator listSchema (listInput req), .next (some e)] ∧
        SurfacesError e (listHandler env req access)) ∧
      (∀ data, env.validator listSchema (listInput req) = .ok data →
        env.core .getAll [access, getProp data "expand", getProp data "query"] = .error e →
        listHandler env req access =
          [.validator listSchema (listInput req),
            .core .getAll [access, getProp data "expand", getProp data "query"],
            .next (some e)] ∧
        SurfacesError e (listHandler env req access))) ∧
    ((env.apiValidator createSchema req.body = .error e →
        createHandler env req access =
          [.apiValidator createSchema req.body, .next (some e)] ∧
        SurfacesError e (createHandler env req access)) ∧
      (∀ payload, env.apiValidator createSchema req.body = .ok payload →
        env.core .create [access, .obj payload] = .error e →
        createHandler env req access =
          [.apiValidator createSchema req.body, .core .create [access, .obj payload],
            .next (some e)] ∧
        SurfacesError e (createHandler env req access))) ∧
    ((env.validator getSchema (getInput req) = .error e →
        getHandler env req access =
          [.validator getSchema (getInput req), .next (some e)] ∧
        SurfacesError e (getHandler env req access)) ∧
      (∀ data, env.validator getSchema (getInput req) = .ok data →
        env.core .get [access, .obj [("id", .num (parseIntOf (getProp data "host_id"))),
          ("expand", getProp data "expand")]] = .error e →
        getHandler env req access =
          [.validator getSchema (getInput req),
            .core .get [access, .obj [("id", .num (parseIntOf (getProp data "host_id"))),
              ("expand", getProp data "expand")]],
            .next (some e)] ∧
        SurfacesError e (getHandler env req access))) ∧
    ((env.apiValidator updateSchema req.body = .error e →
        updateHandler env req access =
          [.apiValidator updateSchema req.body, .next (some e)] ∧
        SurfacesError e (updateHandler env req access)) ∧
      (∀ payload, env.apiValidator updateSchema req.body = .ok payload →
        env.core .update
          [access, .obj (setProp payload "id" (.num (parseInt req.host_id)))] = .error e →
        updateHandler env req access =
          [.apiValidator updateSchema req.body,
            .core .update [access, .obj (setProp payload "id" (.num (parseInt req.host_id)))],
            .next (some e)] ∧
        SurfacesError e (updateHandler env req access))) ∧
    (env.core .delete [access, .obj [("id", .num (parseInt req.host_id))]] = .error e →
      deleteHandler env req access =
        [.core .delete [access, .obj [("id", .num (parseInt req.host_id))]],
          .next (some e)] ∧
      SurfacesError e (deleteHandler env req access)) ∧
    (truthy req.files = true →
      env.core .setCerts
        [access, .obj [("id", .num (parseInt req.host_id)), ("files", req.files)]] =
          .error e →
      certsHandler env req access =
        [.core .setCerts
            [access, .obj [("id", .num (parseInt req.host_id)), ("files", req.files)]],
          .next (some e)] ∧
      SurfacesError e (certsHandler env req access)) := by
  refine ⟨⟨?_, ?_⟩, ⟨?_, ?_⟩, ⟨?_, ?_⟩, ⟨?_, ?_⟩, ?_, ?_⟩
  · intro h
    simp [listHandler, h, SurfacesError, nextCalls, resCalls, responses, responsesFrom]
  · intro data hv hc
    simp [listHandler, hv, callCore, hc, SurfacesError, nextCalls, resCalls, responses,
      responsesFrom]
  · intro h
    simp [createHandler, h, SurfacesError, nextCalls, resCalls, responses, responsesFrom]
  · intro payload hv hc
    simp [createHandler, hv, callCore, hc, SurfacesError, nextCalls, resCalls, responses,
      responsesFrom]
  · intro h
    simp [getHandler, h, SurfacesError, nextCalls, resCalls, responses, responsesFrom]
  · intro data hv hc
    simp [getHandler, hv, callCore, hc, SurfacesError, nextCalls, resCalls, responses,
      responsesFrom]
  · intro h
    simp [updateHandler, h, SurfacesError, nextCalls, resCalls, responses, responsesFrom]
  · intro payload hv hc
    simp [updateHandler, hv, callCore, hc, SurfacesError, nextCalls, resCalls, responses,
      responsesFrom]
  · intro hc
    simp [deleteHandler, callCore, hc, SurfacesError, nextCalls, resCalls, responses,
      responsesFrom]
  · intro hf hc
    simp [certsHandler, hf, callCore, hc, SurfacesError, nextCalls, resCalls, responses,
      responsesFrom]

theorem errors_surfaced_as_is_witness :
    (SurfacesError (.str "ValidationError") (listHandler rejectingEnv sampleReq sampleAccess) ∧
      SurfacesError (.str "NotFound") (listHandler coreRejectingEnv sampleReq sampleAccess)) ∧
    (SurfacesError (.str "ValidationError")
        (createHandler rejectingEnv sampleReq sampleAccess) ∧
      SurfacesError (.str "NotFound")
        (createHandler coreRejectingEnv sampleReq sampleAccess)) ∧
    (SurfacesError (.str "ValidationError") (getHandler rejectingEnv sampleReq sampleAccess) ∧
      SurfacesError (.str "NotFound") (getHandler coreRejectingEnv sampleReq sampleAccess)) ∧
    (SurfacesError (.str "ValidationError")
        (updateHandler rejectingEnv sampleReq sampleAccess) ∧
      updateHandler coreRejectingEnv sampleReq sampleAccess =
        [.apiValidator updateSchema sampleReq.body,
          .core .update [sampleAccess, .obj [("id", .num (.fin false 12)),
            ("forward_port", .num (.fin false 8080))]],
          .next (some (.str "NotFound"))]) ∧
    deleteHandler coreRejectingEnv sampleReq sampleAccess =
      [.core .delete [sampleAccess, .obj [("id", .num (.fin false 12))]],
        .next (some (.str "NotFound"))] ∧
    (truthy uploadReq.files = true ∧
      SurfacesError (.str "NotFound") (certsHandler coreRejectingEnv uploadReq sampleAccess)) :=
  ⟨⟨((errors_surfaced_as_is rejectingEnv sampleReq sampleAccess _).1.1 rfl).2,
      ((errors_surfaced_as_is coreRejectingEnv sampleReq sampleAccess _).1.2 _ rfl rfl).2⟩,
    ⟨((errors_surfaced_as_is rejectingEnv sampleReq sampleAccess _).2.1.1 rfl).2,
      ((errors_surfaced_as_is coreRejectingEnv sampleReq sampleAccess _).2.1.2 _ rfl rfl).2⟩,
    ⟨((errors_surfaced_as_is rejectingEnv sampleReq sampleAccess _).2.2.1.1 rfl).2,
      ((errors_surfaced_as_is coreRejectingEnv sampleReq sampleAccess _).2.2.1.2 _ rfl rfl).2⟩,
    ⟨((errors_surfaced_as_is rejectingEnv sampleReq sampleAccess _).2.2.2.1.1 rfl).2,
      ((errors_surfaced_as_is coreRejectingEnv sampleReq sampleAccess _).2.2.2.1.2 _ rfl
        rfl).1⟩,
    ((errors_surfaced_as_is coreRejectingEnv sampleReq sampleAccess _).2.2.2.2.1 rfl).1,
    ⟨rfl, ((errors_surfaced_as_is coreRejectingEnv uploadReq sampleAccess _).2.2.2.2.2 rfl
      rfl).2⟩⟩

/-- C6: for a string `s` as `expand`, the value handed to validation is the array of the
pieces of `s` between its commas: a non-empty list of comma-free strings whose join with
`,` is `s` again (the empty string gives the one-element list of the empty string); for
any value that is not a string (an absent parameter included) it is `null`. The `query`
filter is handed over unchanged when it is a string and as `null` otherwise. These are the
values in the object list and get pass to the validator. -/
theorem expand_query_inputs (env : Env) (req : Req) (access : JSVal) (s : String) :
    (expandArg (.str s) = .arr ((split s).map .str) ∧
      split s ≠ [] ∧
      (∀ x ∈ split s, ',' ∉ x.data) ∧
      joinComma (split s) = s ∧
      split "" = [""]) ∧
    (∀ v, isString v = false → expandArg v = .null) ∧
    expandArg .undefined = .null ∧
    queryArg (.str s) = .str s ∧
    (∀ v, isString v = false → queryArg v = .null) ∧
    (listHandler env req access).head? = some (.validator listSchema
      (.obj [("expand", expandArg req.expand), ("query", queryArg req.query)])) ∧
    (getHandler env req access).head? = some (.validator getSchema
      (.obj [("host_id", .str req.host_id), ("expand", expandArg req.expand)])) := by
  refine ⟨⟨rfl, ?_, ?_, ?_, rfl⟩, ?_, rfl, rfl, ?_, rfl, rfl⟩
  · simp [split]
  · intro x hx
    simp only [split, List.map_cons, List.mem_cons, List.mem_map] at hx
    rcases hx with rfl | ⟨y, hy, rfl⟩
    · exact splitComma_no_comma s.data _ (List.mem_cons_self _ _)
    · exact splitComma_no_comma s.data _ (List.mem_cons_of_mem _ hy)
  · apply String.ext
    exact joinComma_splitComma s.data
  · intro v hv
    cases v <;> simp_all [isString, expandArg]
  · intro v hv
    cases v <;> simp_all [isString, queryArg]

theorem expand_query_inputs_witness :
    (',' ∉ ("owner" : String).data ∧
      joinComma (split "owner,certificate") = "owner,certificate") ∧
    (isString (.num (.fin false 3)) = false ∧ expandArg (.num (.fin false 3)) = .null) ∧
    (isString (.arr [.str "a"]) = false ∧ queryArg (.arr [.str "a"]) = .null) :=
  ⟨⟨(expand_query_inputs acceptingEnv sampleReq sampleAccess "owner,certificate").1.2.2.1
      "owner" (by decide),
    (expand_query_inputs acceptingEnv sampleReq sampleAccess "owner,certificate").1.2.2.2.1⟩,
   ⟨rfl, (expand_query_inputs acceptingEnv sampleReq sampleAccess "").2.1 _ rfl⟩,
   ⟨rfl, (expand_query_inputs acceptingEnv sampleReq sampleAccess "").2.2.2.2.1 _ rfl⟩⟩

/-- C8: in update, when the validator accepts with a payload, the one call of the core
receives that payload with `id` set to the number parsed from the path parameter, whatever
`id` the payload carried; every other field reads as in the validated payload. -/
theorem update_id_from_path (env : Env) (req : Req) (access : JSVal) (payload : Obj)
    (h : env.apiValidator updateSchema req.body = .ok payload) :
    allCoreCalls (updateHandler env req access) =
      [[access, .obj (setProp payload "id" (.num (parseInt req.host_id)))]] ∧
    getProp (setProp payload "id" (.num (parseInt req.host_id))) "id" =
      .num (parseInt req.host_id) ∧
    (∀ k, k ≠ "id" →
      getProp (setProp payload "id" (.num (parseInt req.host_id))) k = getProp payload k) := by
  refine ⟨?_, getProp_setProp_same _ _ _, fun k hk => getProp_setProp_other _ _ _ _ hk⟩
  simp [updateHandler, h, allCoreCalls, allCoreCalls_callCore]

theorem update_id_from_path_witness :
    acceptingEnv.apiValidator updateSchema sampleReq.body =
        .ok [("id", .num (.fin false 99)), ("forward_port", .num (.fin false 8080))] ∧
    allCoreCalls (updateHandler acceptingEnv sampleReq sampleAccess) =
      [[sampleAccess, .obj [("id", .num (.fin false 12)),
        ("forward_port", .num (.fin false 8080))]]] :=
  ⟨rfl, (update_id_from_path acceptingEnv sampleReq sampleAccess _ rfl).1⟩

/-! ## The routes -/

theorem dispatch_cases (env : Env) (req : Req) (a0 : JSVal) (route : List Layer)
    (hroute : route ∈ [rootRoute, hostRoute, certsRoute]) :
    (req.method = .OPTIONS ∧ dispatch env req route a0 = [.sendStatus 204]) ∨
    (req.method ≠ .OPTIONS ∧ ∃ e, env.jwtdecode req = .fail e ∧
      dispatch env req route a0 = [.jwtdecode, .next (some e)]) ∨
    (req.method ≠ .OPTIONS ∧ env.jwtdecode req = .stop ∧
      dispatch env req route a0 = [.jwtdecode]) ∨
    (req.method ≠ .OPTIONS ∧ ∃ a, env.jwtdecode req = .pass a ∧
      (dispatch env req route a0 = [.jwtdecode, .next none] ∨
        ∃ tr ∈ [listHandler env req a, createHandler env req a, getHandler env req a,
            updateHandler env req a, deleteHandler env req a, certsHandler env req a],
          dispatch env req route a0 = .jwtdecode :: .next none :: tr)) := by
  simp only [List.mem_cons, List.mem_singleton, List.not_mem_nil, or_false] at hroute
  cases hjw : env.jwtdecode req with
  | pass a =>
    rcases hroute with rfl | rfl | rfl <;> cases hmm : req.method <;>
      simp [dispatch, rootRoute, hostRoute, certsRoute, Layer.handles, effectiveMethod,
        runHandler, hmm, hjw, optionsHandler]
  | fail e =>
    rcases hroute with rfl | rfl | rfl <;> cases hmm : req.method <;>
      simp [dispatch, rootRoute, hostRoute, certsRoute, Layer.handles, effectiveMethod,
        runHandler, hmm, hjw, optionsHandler]
  | stop =>
    rcases hroute with rfl | rfl | rfl <;> cases hmm : req.method <;>
      simp [dispatch, rootRoute, hostRoute, certsRoute, Layer.handles, effectiveMethod,
        runHandler, hmm, hjw, optionsHandler]

theorem handler_core_access (env : Env) (req : Req) (access : JSVal) (tr : List Event)
    (htr : tr ∈ [listHandler env req access, createHandler env req access,
      getHandler env req access, updateHandler env req access,
      deleteHandler env req access, certsHandler env req access])
    (args : List JSVal) (hargs : args ∈ allCoreCalls tr) : args.head? = some access := by
  simp only [List.mem_cons, List.mem_singleton, List.not_mem_nil, or_false] at htr
  rcases htr with rfl | rfl | rfl | rfl | rfl | rfl
  · simp only [listHandler] at hargs
    cases hv : env.validator listSchema (listInput req) <;>
      simp [hv, allCoreCalls, allCoreCalls_callCore] at hargs
    simp [hargs]
  · simp only [createHandler] at hargs
    cases hv : env.apiValidator createSchema req.body <;>
      simp [hv, allCoreCalls, allCoreCalls_callCore] at hargs
    simp [hargs]
  · simp only [getHandler] at hargs
    cases hv : env.validator getSchema (getInput req) <;>
      simp [hv, allCoreCalls, allCoreCalls_callCore] at hargs
    simp [hargs]
  · simp only [updateHandler] at hargs
    cases hv : env.apiValidator updateSchema req.body <;>
      simp [hv, allCoreCalls, allCoreCalls_callCore] at hargs
    simp [hargs]
  · simp [deleteHandler, allCoreCalls_callCore] at hargs
    simp [hargs]
  · simp only [certsHandler] at hargs
    by_cases hf : truthy req.files = false
    · simp [hf, allCoreCalls] at hargs
    · simp [hf, allCoreCalls_callCore] at hargs
      simp [hargs]

theorem callCore_withAccess (env : Env) (op : CoreOp) (a b : JSVal) (rest : List JSVal)
    (code : Nat) (h : env.core op (b :: rest) = env.core op (a :: rest)) :
    callCore env op (b :: rest) code =
      (callCore env op (a :: rest) code).map (withAccess b) := by
  unfold callCore
  rw [h]
  cases hc : env.core op (a :: rest) with
  | error e => simp [withAccess]
  | ok r => cases hs : sendOutcome code r <;> simp [withAccess, hs]

/-- C7: every handler makes exactly one call of the core (none when the validator rejects
or the files are missing), and its first argument is the value of `res.locals.access`,
unchanged. The handlers use the descriptor for nothing else: with another descriptor for
which the core answers the same, the trace is the same but for that first argument. On
each of the three routes the first argument of every call of the core is the descriptor
the `jwtdecode` middleware left in `res.locals.access` when it passed the request on. -/
theorem access_passed_to_core (env : Env) (req : Req) (access : JSVal) :
    ((∀ data, env.validator listSchema (listInput req) = .ok data →
        OnlyCoreCall .getAll [access, getProp data "expand", getProp data "query"]
          (listHandler env req access)) ∧
      (∀ payload, env.apiValidator createSchema req.body = .ok payload →
        OnlyCoreCall .create [access, .obj payload] (createHandler env req access)) ∧
      (∀ data, env.validator getSchema (getInput req) = .ok data →
        OnlyCoreCall .get [access, .obj [("id", .num (parseIntOf (getProp data "host_id"))),
          ("expand", getProp data "expand")]] (getHandler env req access)) ∧
      (∀ payload, env.apiValidator updateSchema req.body = .ok payload →
        OnlyCoreCall .update
          [access, .obj (setProp payload "id" (.num (parseInt req.host_id)))]
          (updateHandler env req access)) ∧
      OnlyCoreCall .delete [access, .obj [("id", .num (parseInt req.host_id))]]
        (deleteHandler env req access) ∧
      (truthy req.files = true →
        OnlyCoreCall .setCerts
          [access, .obj [("id", .num (parseInt req.host_id)), ("files", req.files)]]
          (certsHandler env req access))) ∧
    (∀ b, (∀ op rest, env.core op (b :: rest) = env.core op (access :: rest)) →
      listHandler env req b = (listHandler env req access).map (withAccess b) ∧
      createHandler env req b = (createHandler env req access).map (withAccess b) ∧
      getHandler env req b = (getHandler env req access).map (withAccess b) ∧
      updateHandler env req b = (updateHandler env req access).map (withAccess b) ∧
      deleteHandler env req b = (deleteHandler env req access).map (withAccess b) ∧
      certsHandler env req b = (certsHandler env req access).map (withAccess b)) ∧
    (∀ route ∈ [rootRoute, hostRoute, certsRoute],
      ∀ a0, ∀ args ∈ allCoreCalls (dispatch env req route a0),
        ∃ a, env.jwtdecode req = .pass a ∧ args.head? = some a) ∧
    (∀ a a0, env.jwtdecode req = .pass a →
      (req.method = .DELETE →
        OnlyCoreCall .delete [a, .obj [("id", .num (parseInt req.host_id))]]
          (dispatch env req hostRoute a0)) ∧
      (req.method = .POST → truthy req.files = true →
        OnlyCoreCall .setCerts
          [a, .obj [("id", .num (parseInt req.host_id)), ("files", req.files)]]
          (dispatch env req certsRoute a0)) ∧
      (req.method = .POST → ∀ payload, env.apiValidator createSchema req.body = .ok payload →
        OnlyCoreCall .create [a, .obj payload] (dispatch env req rootRoute a0))) := by
  refine ⟨⟨?_, ?_, ?_, ?_, ?_, ?_⟩, ?_, ?_, ?_⟩
  · intro data hv
    simp [OnlyCoreCall, listHandler, hv, coreCalls, allCoreCalls, coreCalls_callCore,
      allCoreCalls_callCore]
  · intro payload hv
    simp [OnlyCoreCall, createHandler, hv, coreCalls, allCoreCalls, coreCalls_callCore,
      allCoreCalls_callCore]
  · intro data hv
    simp [OnlyCoreCall, getHandler, hv, coreCalls, allCoreCalls, coreCalls_callCore,
      allCoreCalls_callCore]
  · intro payload hv
    simp [OnlyCoreCall, updateHandler, hv, coreCalls, allCoreCalls, coreCalls_callCore,
      allCoreCalls_callCore]
  · simp [OnlyCoreCall, deleteHandler, coreCalls_callCore, allCoreCalls_callCore]
  · intro hf
    simp [OnlyCoreCall, certsHandler, hf, coreCalls_callCore, allCoreCalls_callCore]
  · intro b hb
    refine ⟨?_, ?_, ?_, ?_, ?_, ?_⟩
    · simp only [listHandler]
      cases hv : env.validator listSchema (listInput req) with
      | error e => simp [withAccess]
      | ok data =>
        simp only [List.map_cons, withAccess]
        rw [callCore_withAccess env .getAll access b _ 200 (hb _ _)]
    · simp only [createHandler]
      cases hv : env.apiValidator createSchema req.body with
      | error e => simp [withAccess]
      | ok data =>
        simp only [List.map_cons, withAccess]
        rw [callCore_withAccess env .create access b _ 201 (hb _ _)]
    · simp only [getHandler]
      cases hv : env.validator getSchema (getInput req) with
      | error e => simp [withAccess]
      | ok data =>
        simp only [List.map_cons, withAccess]
        rw [callCore_withAccess env .get access b _ 200 (hb _ _)]
    · simp only [updateHandler]
      cases hv : env.apiValidator updateSchema req.body with
      | error e => simp [withAccess]
      | ok data =>
        simp only [List.map_cons, withAccess]
        rw [callCore_withAccess env .update access b _ 200 (hb _ _)]
    · exact callCore_withAccess env .delete access b _ 200 (hb _ _)
    · simp only [certsHandler]
      by_cases hf : truthy req.files = false
      · simp [hf, withAccess]
      · simp only [hf, if_false]
        exact callCore_withAccess env .setCerts access b _ 200 (hb _ _)
  · intro route hroute a0 args hargs
    rcases dispatch_cases env req a0 route hroute with
      ⟨_, h⟩ | ⟨_, e, _, h⟩ | ⟨_, _, h⟩ | ⟨_, a, ha, h | ⟨tr, htr, h⟩⟩
    · simp [h, allCoreCalls] at hargs
    · simp [h, allCoreCalls] at hargs
    · simp [h, allCoreCalls] at hargs
    · simp [h, allCoreCalls] at hargs
    · rw [h] at hargs
      exact ⟨a, ha, handler_core_access env req a tr htr args hargs⟩
  · intro a a0 ha
    refine ⟨?_, ?_, ?_⟩
    · intro hm
      have hd : dispatch env req hostRoute a0 =
          .jwtdecode :: .next none :: deleteHandler env req a := by
        simp [dispatch, hostRoute, Layer.handles, effectiveMethod, runHandler, hm, ha]
      rw [hd]
      exact ⟨coreCalls_callCore env .delete _ 200, allCoreCalls_callCore env .delete _ 200⟩
    · intro hm hf
      have hd : dispatch env req certsRoute a0 =
          .jwtdecode :: .next none :: certsHandler env req a := by
        simp [dispatch, certsRoute, Layer.handles, effectiveMethod, runHandler, hm, ha]
      rw [hd]
      simp only [certsHandler, hf]
      exact ⟨coreCalls_callCore env .setCerts _ 200, allCoreCalls_callCore env .setCerts _ 200⟩
    · intro hm payload hv
      have hd : dispatch env req rootRoute a0 =
          .jwtdecode :: .next none :: createHandler env req a := by
        simp [dispatch, rootRoute, Layer.handles, effectiveMethod, runHandler, hm, ha]
      rw [hd]
      simp only [createHandler, hv]
      exact ⟨coreCalls_callCore env .create _ 201, allCoreCalls_callCore env .create _ 201⟩

theorem access_passed_to_core_witness :
    (OnlyCoreCall .getAll [sampleAccess, .arr [.str "owner", .str "certificate"],
        .str "example"] (listHandler acceptingEnv sampleReq sampleAccess) ∧
      OnlyCoreCall .create [sampleAccess, sampleReq.body]
        (createHandler acceptingEnv sampleReq sampleAccess) ∧
      OnlyCoreCall .get [sampleAccess, .obj [("id", .num (.fin false 12)),
        ("expand", .arr [.str "owner", .str "certificate"])]]
        (getHandler acceptingEnv sampleReq sampleAccess) ∧
      OnlyCoreCall .update [sampleAccess, .obj [("id", .num (.fin false 12)),
        ("forward_port", .num (.fin false 8080))]]
        (updateHandler acceptingEnv sampleReq sampleAccess) ∧
      OnlyCoreCall .delete [sampleAccess, .obj [("id", .num (.fin false 12))]]
        (deleteHandler acceptingEnv sampleReq sampleAccess) ∧
      truthy uploadReq.files = true ∧
      OnlyCoreCall .setCerts [sampleAccess, .obj [("id", .num (.fin false 12)),
        ("files", .obj [("certificate", .str "PEM")])]]
        (certsHandler acceptingEnv uploadReq sampleAccess)) ∧
    (getHandler acceptingEnv sampleReq (.obj [("scope", .str "user")]) =
        (getHandler acceptingEnv sampleReq sampleAccess).map
          (withAccess (.obj [("scope", .str "user")])) ∧
      certsHandler acceptingEnv uploadReq (.obj [("scope", .str "user")]) =
        (certsHandler acceptingEnv uploadReq sampleAccess).map
          (withAccess (.obj [("scope", .str "user")]))) ∧
    ([sampleAccess, .arr [.str "owner", .str "certificate"], .str "example"] ∈
        allCoreCalls (dispatch acceptingEnv sampleReq rootRoute .undefined) ∧
      ∃ a, acceptingEnv.jwtdecode sampleReq = .pass a ∧
        ([sampleAccess, .arr [.str "owner", .str "certificate"], .str "example"] :
          List JSVal).head? = some a) ∧
    (acceptingEnv.jwtdecode uploadReq = .pass sampleAccess ∧ uploadReq.method = .POST ∧
      OnlyCoreCall .setCerts [sampleAccess, .obj [("id", .num (.fin false 12)),
        ("files", .obj [("certificate", .str "PEM")])]]
        (dispatch acceptingEnv uploadReq certsRoute .undefined)) :=
  ⟨⟨(access_passed_to_core acceptingEnv sampleReq sampleAccess).1.1 _ rfl,
      (access_passed_to_core acceptingEnv sampleReq sampleAccess).1.2.1 _ rfl,
      (access_passed_to_core acceptingEnv sampleReq sampleAccess).1.2.2.1 _ rfl,
      (access_passed_to_core acceptingEnv sampleReq sampleAccess).1.2.2.2.1 _ rfl,
      (access_passed_to_core acceptingEnv sampleReq sampleAccess).1.2.2.2.2.1,
      rfl,
      (access_passed_to_core acceptingEnv uploadReq sampleAccess).1.2.2.2.2.2 rfl⟩,
    ⟨((access_passed_to_core acceptingEnv sampleReq sampleAccess).2.1
        (.obj [("scope", .str "user")]) (fun _ _ => rfl)).2.2.1,
      ((access_passed_to_core acceptingEnv uploadReq sampleAccess).2.1
        (.obj [("scope", .str "user")]) (fun _ _ => rfl)).2.2.2.2.2⟩,
    ⟨List.mem_cons_self _ _,
      (access_passed_to_core acceptingEnv sampleReq sampleAccess).2.2.1 rootRoute (by simp)
        .undefined _ (List.mem_cons_self _ _)⟩,
    ⟨rfl, rfl,
      ((access_passed_to_core acceptingEnv uploadReq sampleAccess).2.2.2 sampleAccess
        .undefined rfl).2.1 rfl rfl⟩⟩

/-- C10: on each of the three routes an OPTIONS request gets the one response 204 without
a body and nothing else runs (no `jwtdecode`, no validator, no core operation). For every
other method the first thing that runs is `jwtdecode`; when it does not pass the request
on, no validator and no core operation is called; when it passes the request on, the
handler of the method runs after it, with the descriptor the middleware left. -/
theorem options_and_jwt_gate (env : Env) (req : Req) (a0 : JSVal) :
    (req.method = .OPTIONS → ∀ route ∈ [rootRoute, hostRoute, certsRoute],
      dispatch env req route a0 = [.sendStatus 204] ∧
      responses (dispatch env req route a0) = [⟨204, .empty⟩] ∧
      Event.jwtdecode ∉ dispatch env req route a0 ∧
      ∀ ev ∈ dispatch env req route a0, ev.isValidatorOrCore = false) ∧
    (req.method ≠ .OPTIONS → ∀ route ∈ [rootRoute, hostRoute, certsRoute],
      (dispatch env req route a0).head? = some .jwtdecode ∧
      ((∀ a, env.jwtdecode req ≠ .pass a) →
        ∀ ev ∈ dispatch env req route a0, ev.isValidatorOrCore = false)) ∧
    (∀ a, env.jwtdecode req = .pass a →
      (req.method = .GET →
        dispatch env req rootRoute a0 = .jwtdecode :: .next none :: listHandler env req a) ∧
      (req.method = .POST →
        dispatch env req rootRoute a0 = .jwtdecode :: .next none :: createHandler env req a) ∧
      (req.method = .GET →
        dispatch env req hostRoute a0 = .jwtdecode :: .next none :: getHandler env req a) ∧
      (req.method = .PUT →
        dispatch env req hostRoute a0 = .jwtdecode :: .next none :: updateHandler env req a) ∧
      (req.method = .DELETE →
        dispatch env req hostRoute a0 = .jwtdecode :: .next none :: deleteHandler env req a) ∧
      (req.method = .POST →
        dispatch env req certsRoute a0 =
          .jwtdecode :: .next none :: certsHandler env req a)) := by
  refine ⟨?_, ?_, ?_⟩
  · intro hm route hroute
    rcases dispatch_cases env req a0 route hroute with
      ⟨_, h⟩ | ⟨hne, _⟩ | ⟨hne, _⟩ | ⟨hne, _⟩
    · rw [h]
      simp [responses, responsesFrom, Event.isValidatorOrCore]
    · exact absurd hm hne
    · exact absurd hm hne
    · exact absurd hm hne
  · intro hm route hroute
    rcases dispatch_cases env req a0 route hroute with
      ⟨heq, _⟩ | ⟨_, e, _, h⟩ | ⟨_, _, h⟩ | ⟨_, a, ha, h | ⟨tr, _, h⟩⟩
    · exact absurd heq hm
    · rw [h]
      simp [Event.isValidatorOrCore]
    · rw [h]
      simp [Event.isValidatorOrCore]
    · rw [h]
      simp [Event.isValidatorOrCore]
    · rw [h]
      refine ⟨rfl, fun hj => absurd ha (hj a)⟩
  · intro a ha
    refine ⟨?_, ?_, ?_, ?_, ?_, ?_⟩ <;> intro hm <;>
      simp [dispatch, rootRoute, hostRoute, certsRoute, Layer.handles, effectiveMethod,
        runHandler, hm, ha]

theorem options_and_jwt_gate_witness :
    (({ sampleReq with method := .OPTIONS } : Req).method = .OPTIONS ∧
      dispatch acceptingEnv { sampleReq with method := .OPTIONS } hostRoute .undefined =
        [.sendStatus 204]) ∧
    (uploadReq.method ≠ .OPTIONS ∧
      (∀ a, rejectingEnv.jwtdecode uploadReq ≠ .pass a) ∧
      ∀ ev ∈ dispatch rejectingEnv uploadReq certsRoute .undefined,
        ev.isValidatorOrCore = false) ∧
    (acceptingEnv.jwtdecode sampleReq = .pass sampleAccess ∧ sampleReq.method = .GET ∧
      dispatch acceptingEnv sampleReq hostRoute .undefined =
        .jwtdecode :: .next none :: getHandler acceptingEnv sampleReq sampleAccess) :=
  ⟨⟨rfl, ((options_and_jwt_gate acceptingEnv { sampleReq with method := .OPTIONS }
      .undefined).1 rfl hostRoute (by simp)).1⟩,
    ⟨by decide, (fun a h => by simp [rejectingEnv] at h),
      ((options_and_jwt_gate rejectingEnv uploadReq .undefined).2.1 (by decide) certsRoute
        (by simp)).2 (fun a h => by simp [rejectingEnv] at h)⟩,
    ⟨rfl, rfl,
      ((options_and_jwt_gate acceptingEnv sampleReq .undefined).2.2 sampleAccess rfl).2.2.1
        rfl⟩⟩

/-- C9 (as stated, refuted): the path parameter `9007199254740993` is the canonical
numeral of 2^53 + 1, yet delete calls the core with the id 9007199254740992, the nearest
double; and the path parameter `-7`, which starts with no decimal digit, gives the id -7,
not NaN. -/
theorem host_id_beyond_safe_range :
    bigIdReq.host_id = Nat.repr 9007199254740993 ∧
    allCoreCalls (deleteHandler acceptingEnv bigIdReq sampleAccess) =
      [[sampleAccess, .obj [("id", .num (.fin false 9007199254740992))]]] ∧
    parseInt (Nat.repr 9007199254740993) ≠ .fin false 9007199254740993 ∧
    isDecDigit '-' = false ∧ parseInt "-7" = .fin true 7 := by
  refine ⟨by decide, rfl, by decide, by decide, by decide⟩

/-- C9 (amended): update, delete and setCerts pass `parseInt(req.params.host_id, 10)` as the
id to the core without validating the path parameter, and get passes
`parseInt(data.host_id, 10)` of the validated data, which is the same number when the
validator hands `host_id` back as the string or as the number it denotes. `parseInt` skips
leading white space, reads an optional sign and then the longest run of decimal digits,
leading zeros included, and gives the Number value of the signed integer: exactly `n` for a
numeral of `n` up to 2^53 (so `12abc` is host 12), and for a larger `n` the nearest multiple
of `2^e` where `2^(52+e) ≤ n < 2^(53+e)`, the even one on a tie, or an infinity from 2^1024
on. When no digit follows the white space and the sign the id is NaN, with which the core
is called. -/
theorem host_id_parsed (env : Env) (req : Req) (access : JSVal) :
    (OnlyCoreCall .delete [access, .obj [("id", .num (parseInt req.host_id))]]
        (deleteHandler env req access) ∧
      (∀ payload, env.apiValidator updateSchema req.body = .ok payload →
        OnlyCoreCall .update
          [access, .obj (setProp payload "id" (.num (parseInt req.host_id)))]
          (updateHandler env req access)) ∧
      (truthy req.files = true →
        OnlyCoreCall .setCerts
          [access, .obj [("id", .num (parseInt req.host_id)), ("files", req.files)]]
          (certsHandler env req access)) ∧
      (∀ data, env.validator getSchema (getInput req) = .ok data →
        OnlyCoreCall .get [access, .obj [("id", .num (parseIntOf (getProp data "host_id"))),
          ("expand", getProp data "expand")]] (getHandler env req access))) ∧
    ((∀ s, parseIntOf (.str s) = parseInt s) ∧
      (∀ n, n < 10 ^ 21 → parseIntOf (.num (.fin false n)) = parseInt (Nat.repr n))) ∧
    ((∀ n, n ≤ 2 ^ 53 → parseInt (Nat.repr n) = .fin false n) ∧
      (∀ ws sign rest z n, (∀ c ∈ ws, isWhiteSpace c = true) → sign ∈ [[], ['+'], ['-']] →
        (∀ c ∈ rest.head?, isDecDigit c = false) →
        parseInt (String.mk
            (ws ++ sign ++ List.replicate z '0' ++ (Nat.repr n).data ++ rest)) =
          toNumber (decide (sign = ['-'])) n) ∧
      parseInt "12abc" = .fin false 12 ∧
      parseInt " 42" = .fin false 42 ∧
      parseInt "+7" = .fin false 7 ∧
      (∀ c, isWhiteSpace c = true ↔ c ∈ whiteSpaceChars)) ∧
    ((∀ neg n, n ≤ 2 ^ 53 → toNumber neg n = .fin neg n) ∧
      (∀ neg n, toNumber neg n =
        if roundToDouble n < 2 ^ 1024 then .fin neg (roundToDouble n) else .inf neg) ∧
      (∀ n e, 1 ≤ e → 2 ^ (52 + e) ≤ n → n < 2 ^ (53 + e) →
        ∃ k, roundToDouble n = k * 2 ^ e ∧ 2 ^ 52 ≤ k ∧ k ≤ 2 ^ 53 ∧
          2 * (k * 2 ^ e) ≤ 2 * n + 2 ^ e ∧ 2 * n ≤ 2 * (k * 2 ^ e) + 2 ^ e ∧
          ((2 * (k * 2 ^ e) = 2 * n + 2 ^ e ∨ 2 * n = 2 * (k * 2 ^ e) + 2 ^ e) →
            k % 2 = 0))) ∧
    ((∀ ws rest, (∀ c ∈ ws, isWhiteSpace c = true) →
        (∀ c ∈ rest.head?,
          isDecDigit c = false ∧ isWhiteSpace c = false ∧ c ≠ '-' ∧ c ≠ '+') →
        parseInt (String.mk (ws ++ rest)) = .nan) ∧
      (∀ ws rest sg, (∀ c ∈ ws, isWhiteSpace c = true) → (sg = '-' ∨ sg = '+') →
        (∀ c ∈ rest.head?, isDecDigit c = false) →
        parseInt (String.mk (ws ++ sg :: rest)) = .nan)) := by
  refine ⟨⟨?_, ?_, ?_, ?_⟩, ⟨?_, ?_⟩, ⟨?_, ?_, by decide, by decide, by decide,
    isWhiteSpace_iff⟩, ⟨?_, ?_, ?_⟩, ⟨?_, ?_⟩⟩
  · exact ⟨coreCalls_callCore env .delete _ 200, allCoreCalls_callCore env .delete _ 200⟩
  · intro payload h
    simp [OnlyCoreCall, updateHandler, h, coreCalls, allCoreCalls, coreCalls_callCore,
      allCoreCalls_callCore]
  · intro h
    simp [OnlyCoreCall, certsHandler, h, coreCalls_callCore, allCoreCalls_callCore]
  · intro data h
    simp [OnlyCoreCall, getHandler, h, coreCalls, allCoreCalls, coreCalls_callCore,
      allCoreCalls_callCore]
  · intro s
    simp [parseIntOf, toStringJS]
  · intro n hn
    exact parseIntOf_number n hn
  · intro n hn
    exact parseInt_repr n hn
  · intro ws sign rest z n hws hsign hrest
    exact parseInt_general ws sign rest z n hws hsign hrest
  · intro neg n hn
    exact toNumber_safe neg n hn
  · intro neg n
    exact toNumber_spec neg n
  · intro n e he hlo hhi
    exact roundToDouble_nearest n e he hlo hhi
  · intro ws rest hws hrest
    exact parseInt_nan_plain ws rest hws hrest
  · intro ws rest sg hws hsg hrest
    exact parseInt_nan_sign ws rest sg hws hsg hrest

theorem host_id_parsed_witness :
    (acceptingEnv.validator getSchema (getInput sampleReq) =
        .ok [("host_id", .str "12"), ("expand", .arr [.str "owner", .str "certificate"])] ∧
      OnlyCoreCall .get [sampleAccess, .obj [("id", .num (.fin false 12)),
        ("expand", .arr [.str "owner", .str "certificate"])]]
        (getHandler acceptingEnv sampleReq sampleAccess)) ∧
    (truthy uploadReq.files = true ∧
      OnlyCoreCall .setCerts [sampleAccess, .obj [("id", .num (.fin false 12)),
        ("files", uploadReq.files)]] (certsHandler acceptingEnv uploadReq sampleAccess)) ∧
    OnlyCoreCall .update [sampleAccess, .obj [("id", .num (.fin false 12)),
      ("forward_port", .num (.fin false 8080))]]
      (updateHandler acceptingEnv sampleReq sampleAccess) ∧
    ((12 : Nat) < 10 ^ 21 ∧ parseIntOf (.num (.fin false 12)) = parseInt (Nat.repr 12)) ∧
    ((12 : Nat) ≤ 2 ^ 53 ∧ parseInt (Nat.repr 12) = .fin false 12) ∧
    parseInt " -007px" = .fin true 7 ∧
    ((2 : Nat) ^ (52 + 1) ≤ 2 ^ 53 + 1 ∧ (2 : Nat) ^ 53 + 1 < 2 ^ (53 + 1) ∧
      ∃ k, roundToDouble (2 ^ 53 + 1) = k * 2 ^ 1 ∧ 2 ^ 52 ≤ k ∧ k ≤ 2 ^ 53 ∧
        2 * (k * 2 ^ 1) ≤ 2 * (2 ^ 53 + 1) + 2 ^ 1 ∧
        2 * (2 ^ 53 + 1) ≤ 2 * (k * 2 ^ 1) + 2 ^ 1 ∧
        ((2 * (k * 2 ^ 1) = 2 * (2 ^ 53 + 1) + 2 ^ 1 ∨
          2 * (2 ^ 53 + 1) = 2 * (k * 2 ^ 1) + 2 ^ 1) → k % 2 = 0)) ∧
    parseInt "latest" = .nan ∧
    parseInt " -x1" = .nan :=
  ⟨⟨rfl, (host_id_parsed acceptingEnv sampleReq sampleAccess).1.2.2.2 _ rfl⟩,
    ⟨rfl, (host_id_parsed acceptingEnv uploadReq sampleAccess).1.2.2.1 rfl⟩,
    (host_id_parsed acceptingEnv sampleReq sampleAccess).1.2.1 _ rfl,
    ⟨by norm_num, (host_id_parsed acceptingEnv sampleReq sampleAccess).2.1.2 12 (by norm_num)⟩,
    ⟨by norm_num,
      (host_id_parsed acceptingEnv sampleReq sampleAccess).2.2.1.1 12 (by norm_num)⟩,
    (host_id_parsed acceptingEnv sampleReq sampleAccess).2.2.1.2.1 [' '] ['-'] ['p', 'x'] 2 7
      (by decide) (by decide) (by decide),
    ⟨by norm_num, by norm_num,
      (host_id_parsed acceptingEnv sampleReq sampleAccess).2.2.2.1.2.2 (2 ^ 53 + 1) 1
        (by norm_num) (by norm_num) (by norm_num)⟩,
    (host_id_parsed acceptingEnv sampleReq sampleAccess).2.2.2.2.1 [] "latest".data
      (by decide) (by decide),
    (host_id_parsed acceptingEnv sampleReq sampleAccess).2.2.2.2.2 [' '] ['x', '1'] '-'
      (by decide) (by decide) (by decide)⟩

end ProxyHosts
